import Mathlib

/-!
# Verification development for `reflection/info.go` (grpc-ui)

A shallow embedding of `GetInfo` and `GetTypeInfo` from `src/reflection/info.go`.

Modelling conventions

* Go strings are Lean `String`s; the two library string operations the source
  applies (`strings.Split(_, "/")[0]`, `strings.ToLower(_[5:])`) are written over
  the character list.  The sliced strings are ASCII (symbolic enum names or
  decimal numerals), so bytes and characters coincide there.
* `int32`/`int` values are `Int`; the source performs no arithmetic on them.
* Descriptor records hold what the generated getters (`GetName`, `GetNumber`,
  `GetType`, ...) return, i.e. the zero value when a field is unset.  The one
  place where the source dereferences a pointer directly (`*descr.Name`) keeps
  the pointer as an `Option`.
* The member `Type` of `FieldInfo` and of the field descriptor is spelled `Typ`
  (`Type` is reserved in Lean).
* `descPool` is not part of `info.go`; its lookups are taken as parameters, and a
  lookup answers the same for the same name throughout one call.
* `GetTypeInfo` recurses with no bound, so the embedding threads a call-depth
  budget; running out of budget (`Fault.fuel`) stands for a call that has not
  returned within that depth.  Slice and nil-pointer panics are faults too.
* Go distinguishes a nil slice from an empty one; both are the empty list here.
-/

namespace reflection

/-! ## Descriptor types (package `descriptor`, views through the getters) -/

/-- Serialized payload of a `descriptor.MessageOptions` value. -/
structure MessageOptions where
  raw : List Nat
  deriving DecidableEq, Repr

/-- Serialized payload of a `descriptor.FieldOptions` value. -/
structure FieldOptions where
  raw : List Nat
  deriving DecidableEq, Repr

/-- View of `descriptor.FieldDescriptorProto` through `GetName`, `GetNumber`,
`GetLabel`, `GetType`, `GetTypeName`, `GetOptions`. -/
structure FieldDescriptorProto where
  Name : String
  Number : Int
  Label : Int
  Typ : Int
  TypeName : String
  Options : Option FieldOptions
  deriving DecidableEq, Repr

/-- View of `descriptor.DescriptorProto` through `GetName`, `GetField`, `GetOptions`. -/
structure DescriptorProto where
  Name : String
  Field : List FieldDescriptorProto
  Options : Option MessageOptions
  deriving DecidableEq, Repr

/-- View of `descriptor.EnumValueDescriptorProto` through `GetName`, `GetNumber`. -/
structure EnumValueDescriptorProto where
  Name : String
  Number : Int
  deriving DecidableEq, Repr

/-- View of `descriptor.EnumDescriptorProto`: `GetName` and the `Value` slice. -/
structure EnumDescriptorProto where
  Name : String
  Value : List EnumValueDescriptorProto
  deriving DecidableEq, Repr

/-- View of `descriptor.MethodDescriptorProto` through its getters. -/
structure MethodDescriptorProto where
  Name : String
  InputType : String
  OutputType : String
  ClientStreaming : Bool
  ServerStreaming : Bool
  deriving DecidableEq, Repr

/-- The `descriptor.ServiceDescriptorProto` fields `GetInfo` reads.  `Name` is the
raw `*string`, because the source dereferences it without a getter. -/
structure ServiceDescriptorProto where
  Name : Option String
  Method : List MethodDescriptorProto
  deriving DecidableEq, Repr

/-- The numeric value of `descriptor.FieldDescriptorProto_TYPE_ENUM`. -/
def FieldDescriptorProto_TYPE_ENUM : Int := 14

/-- The table `descriptor.FieldDescriptorProto_Type_name`. -/
def FieldDescriptorProto_Type_name : List (Int × String) :=
  [ (1, "TYPE_DOUBLE"), (2, "TYPE_FLOAT"), (3, "TYPE_INT64"), (4, "TYPE_UINT64"),
    (5, "TYPE_INT32"), (6, "TYPE_FIXED64"), (7, "TYPE_FIXED32"), (8, "TYPE_BOOL"),
    (9, "TYPE_STRING"), (10, "TYPE_GROUP"), (11, "TYPE_MESSAGE"), (12, "TYPE_BYTES"),
    (13, "TYPE_UINT32"), (14, "TYPE_ENUM"), (15, "TYPE_SFIXED32"), (16, "TYPE_SFIXED64"),
    (17, "TYPE_SINT32"), (18, "TYPE_SINT64") ]

/-- Decimal rendering of an integer, as `strconv.Itoa`. -/
def Itoa (v : Int) : String :=
  match v with
  | Int.ofNat n => Nat.repr n
  | Int.negSucc n => "-" ++ Nat.repr (n + 1)

/-- The method `FieldDescriptorProto_Type.String`, that is `proto.EnumName` over the
name table: the symbolic name of a defined code, the decimal numeral otherwise. -/
def FieldDescriptorProto_Type_String (x : Int) : String :=
  match FieldDescriptorProto_Type_name.lookup x with
  | some s => s
  | none => Itoa x

/-- ASCII view of `strings.ToLower`, character by character. -/
def ToLower (s : List Char) : List Char :=
  s.map Char.toLower

/-- The function `strings.Split` for a one-character separator, over character lists. -/
def Split (sep : Char) : List Char → List (List Char)
  | [] => [[]]
  | c :: cs =>
    if c = sep then [] :: Split sep cs
    else
      match Split sep cs with
      | [] => [[c]]
      | h :: t => (c :: h) :: t

/-- The expression `strings.Split(sname, "/")[0]` of `GetInfo`. -/
def packageNameOf (sname : String) : String :=
  String.mk ((Split '/' sname.data).headD [])

/-! ## Result types of `info.go` -/

/-- The struct `EnumValueInfo`. -/
structure EnumValueInfo where
  Name : String
  Number : Int
  deriving DecidableEq, Repr

/-- The struct `EnumInfo`. -/
structure EnumInfo where
  Name : String
  Values : List EnumValueInfo
  deriving DecidableEq, Repr

/-- The struct `FieldInfo`, with the type of its `Type` member left open so that
`TypeInfo` can be declared as the recursive knot. -/
structure FieldInfoOf (T : Type) where
  Name : String
  Number : Int
  Label : Int
  Typ : T
  Enum : EnumInfo
  Options : Option FieldOptions

/-- The struct `TypeInfo`. -/
inductive TypeInfo where
  | mk (Id : Int) (Name : String) (Fields : List (FieldInfoOf TypeInfo))
      (Options : Option MessageOptions)

/-- The struct `FieldInfo`. -/
abbrev FieldInfo := FieldInfoOf TypeInfo

/-- Member `Id` of `TypeInfo`. -/
def TypeInfo.Id : TypeInfo → Int
  | .mk i _ _ _ => i

/-- Member `Name` of `TypeInfo`. -/
def TypeInfo.Name : TypeInfo → String
  | .mk _ n _ _ => n

/-- Member `Fields` of `TypeInfo`. -/
def TypeInfo.Fields : TypeInfo → List FieldInfo
  | .mk _ _ fs _ => fs

/-- Member `Options` of `TypeInfo`. -/
def TypeInfo.Options : TypeInfo → Option MessageOptions
  | .mk _ _ _ o => o

/-- The assignment `t.Id = id`. -/
def TypeInfo.setId (t : TypeInfo) (id : Int) : TypeInfo :=
  .mk id t.Name t.Fields t.Options

/-- The assignment `t.Name = name`. -/
def TypeInfo.setName (t : TypeInfo) (name : String) : TypeInfo :=
  .mk t.Id name t.Fields t.Options

/-- The struct `Method`. -/
structure Method where
  Name : String
  In : TypeInfo
  Out : TypeInfo
  InStream : Bool
  OutStream : Bool

/-- The struct `Service`. -/
structure Service where
  Name : String
  PackageName : String
  Methods : List Method

/-! ## The descriptor pool -/

/-- An `error` value returned by the pool. -/
structure Error where
  msg : String
  deriving DecidableEq, Repr

/-- The operations of `*descPool` that `info.go` calls.  `connect` is the result of
`pool.connect(ctx, addr)` (`none` is a nil error); `getServicesDescriptors` lists the
service map in the order the `range` loop enumerates it. -/
structure descPool where
  connect : Option Error
  getServicesDescriptors : Except Error (List (String × ServiceDescriptorProto))
  getTypeDescriptor : String → Option DescriptorProto
  getEnumDescriptor : String → Option EnumDescriptorProto

/-- Ways a call fails to return a value: the call-depth budget is exhausted
(unbounded recursion), a slice expression is out of range, a nil pointer is
dereferenced. -/
inductive Fault where
  | fuel
  | sliceBounds
  | nilDeref
  deriving DecidableEq, Repr

/-! ## `GetTypeInfo` -/

/-- The `else` branch at lines 127-130:
`TypeInfo{Name: strings.ToLower(fieldType.String()[5:]), Id: int(fieldType)}`.
The slice expression panics when the string is shorter than five bytes. -/
def scalarTypeInfo (fieldType : Int) : Except Fault TypeInfo :=
  let s := (FieldDescriptorProto_Type_String fieldType).data
  if s.length < 5 then .error .sliceBounds
  else .ok (.mk fieldType (String.mk (ToLower (s.drop 5))) [] none)

/-- Lines 133-144 as far as they write `Fields[i].Enum`. -/
def enumInfoOf (pool : descPool) (fieldType : Int) (fieldTypeName : String) : EnumInfo :=
  if fieldType = FieldDescriptorProto_TYPE_ENUM then
    match pool.getEnumDescriptor fieldTypeName with
    | some enumInfo =>
      { Name := enumInfo.Name
        Values := enumInfo.Value.map (fun ee => { Name := ee.Name, Number := ee.Number }) }
    | none => { Name := "", Values := [] }
  else { Name := "", Values := [] }

/-- Lines 120-131: the value assigned to `Fields[i].Type` before the enum check;
`recur` is the recursive call `GetTypeInfo(pool, _)`. -/
def fieldTypeInfo (recur : String → Except Fault TypeInfo) (field : FieldDescriptorProto) :
    Except Fault TypeInfo :=
  if field.TypeName ≠ "" then
    match recur field.TypeName with
    | .ok t => .ok (t.setId field.Typ)
    | .error e => .error e
  else scalarTypeInfo field.Typ

/-- One iteration of the loop at lines 114-146. -/
def buildField (pool : descPool) (recur : String → Except Fault TypeInfo)
    (field : FieldDescriptorProto) : Except Fault FieldInfo :=
  match fieldTypeInfo recur field with
  | .error e => .error e
  | .ok ty =>
    .ok { Name := field.Name
          Number := field.Number
          Label := field.Label
          Options := field.Options
          Typ := if field.Typ = FieldDescriptorProto_TYPE_ENUM then ty.setName "enum" else ty
          Enum := enumInfoOf pool field.Typ field.TypeName }

/-- The loop at lines 114-146, in declaration order; the first fault ends it. -/
def buildFields (pool : descPool) (recur : String → Except Fault TypeInfo) :
    List FieldDescriptorProto → Except Fault (List FieldInfo)
  | [] => .ok []
  | field :: rest =>
    match buildField pool recur field with
    | .error e => .error e
    | .ok fi =>
      match buildFields pool recur rest with
      | .error e => .error e
      | .ok fis => .ok (fi :: fis)

/-- The function `GetTypeInfo` (lines 97-148) with a call-depth budget: each call
spends one unit, a call entered with none left is `Fault.fuel`. -/
def GetTypeInfo : Nat → descPool → String → Except Fault TypeInfo
  | 0, _, _ => .error .fuel
  | n + 1, pool, typeName =>
    match pool.getTypeDescriptor typeName with
    | none => .ok (.mk 0 typeName [] none)
    | some desc =>
      match buildFields pool (GetTypeInfo n pool) desc.Field with
      | .error e => .error e
      | .ok fields => .ok (.mk 0 desc.Name fields desc.Options)

/-! ## `GetInfo` -/

/-- The loop at lines 79-89 building `s.Methods`. -/
def buildMethods (n : Nat) (pool : descPool) :
    List MethodDescriptorProto → Except Fault (List Method)
  | [] => .ok []
  | method :: rest =>
    match GetTypeInfo n pool method.InputType with
    | .error e => .error e
    | .ok tin =>
      match GetTypeInfo n pool method.OutputType with
      | .error e => .error e
      | .ok tout =>
        match buildMethods n pool rest with
        | .error e => .error e
        | .ok ms =>
          .ok ({ Name := method.Name, In := tin, Out := tout
                 InStream := method.ClientStreaming
                 OutStream := method.ServerStreaming } :: ms)

/-- The loop at lines 66-92 over the enumerated service map. -/
def buildServices (n : Nat) (pool : descPool) :
    List (String × ServiceDescriptorProto) → Except Fault (List Service)
  | [] => .ok []
  | (sname, descr) :: rest =>
    let packageName := packageNameOf sname
    if packageName = "grpc.reflection.v1alpha" then buildServices n pool rest
    else
      match descr.Name with
      | none => .error .nilDeref
      | some name =>
        match buildMethods n pool descr.Method with
        | .error e => .error e
        | .ok methods =>
          match buildServices n pool rest with
          | .error e => .error e
          | .ok res => .ok ({ Name := name, PackageName := packageName, Methods := methods } :: res)

/-- The function `GetInfo` (lines 52-95) on a pool; `n` is the call-depth budget
handed to every `GetTypeInfo` call.  The inner `Except` is the Go pair
`([]Service, error)`. -/
def GetInfo (n : Nat) (pool : descPool) : Except Fault (Except Error (List Service)) :=
  match pool.connect with
  | some err => .ok (.error err)
  | none =>
    match pool.getServicesDescriptors with
    | .error err => .ok (.error err)
    | .ok services =>
      match buildServices n pool services with
      | .error e => .error e
      | .ok res => .ok (.ok res)

/-! ## Concrete pools used to exercise the definitions -/

/-- A message with one `bool` field. -/
def innerDesc : DescriptorProto :=
  { Name := "Inner"
    Field := [{ Name := "flag", Number := 1, Label := 1, Typ := 8, TypeName := "", Options := none }]
    Options := some { raw := [8, 1] } }

/-- A message with a scalar field, a resolvable enum field, a nested message, a
reference to a message the pool does not know and an enum the pool does not know. -/
def helloRequestDesc : DescriptorProto :=
  { Name := "HelloRequest"
    Field :=
      [ { Name := "count", Number := 1, Label := 1, Typ := 5, TypeName := "", Options := none },
        { Name := "kind", Number := 2, Label := 1, Typ := 14, TypeName := "pkg.Kind",
          Options := none },
        { Name := "inner", Number := 3, Label := 3, Typ := 11, TypeName := "pkg.Inner",
          Options := some { raw := [16, 1] } },
        { Name := "ghost", Number := 4, Label := 1, Typ := 11, TypeName := "missing.Type",
          Options := none },
        { Name := "lost", Number := 5, Label := 1, Typ := 14, TypeName := "pkg.NoEnum",
          Options := none } ]
    Options := none }

/-- A message with one `string` field. -/
def helloReplyDesc : DescriptorProto :=
  { Name := "HelloReply"
    Field := [{ Name := "message", Number := 1, Label := 1, Typ := 9, TypeName := "",
                Options := none }]
    Options := none }

/-- A message whose only field is a `HelloRequest`. -/
def outerDesc : DescriptorProto :=
  { Name := "Outer"
    Field := [{ Name := "req", Number := 1, Label := 1, Typ := 11,
                TypeName := "pkg.HelloRequest", Options := none }]
    Options := none }

/-- An enum with two values. -/
def kindDesc : EnumDescriptorProto :=
  { Name := "Kind", Value := [{ Name := "A", Number := 0 }, { Name := "B", Number := 1 }] }

/-- The service `Greeter` with the unary method `SayHello` and a method whose
input type the pool does not know. -/
def greeterDesc : ServiceDescriptorProto :=
  { Name := some "Greeter"
    Method :=
      [ { Name := "SayHello", InputType := "pkg.HelloRequest", OutputType := "pkg.HelloReply",
          ClientStreaming := false, ServerStreaming := false },
        { Name := "Watch", InputType := "missing.Type", OutputType := "pkg.Inner",
          ClientStreaming := false, ServerStreaming := true } ] }

/-- A service with no methods. -/
def emptyServiceDesc : ServiceDescriptorProto :=
  { Name := some "ServerReflection", Method := [] }

/-- A pool that knows four messages and one enum and lists three services. -/
def samplePool : descPool :=
  { connect := none
    getServicesDescriptors :=
      .ok [ ("grpc.reflection.v1alpha/ServerReflection", emptyServiceDesc),
            ("pkg.Greeter", greeterDesc),
            ("grpc.reflection.v1alpha2/ServerReflection", emptyServiceDesc) ]
    getTypeDescriptor := fun s =>
      if s = "pkg.HelloRequest" then some helloRequestDesc
      else if s = "pkg.HelloReply" then some helloReplyDesc
      else if s = "pkg.Inner" then some innerDesc
      else if s = "pkg.Outer" then some outerDesc
      else none
    getEnumDescriptor := fun s => if s = "pkg.Kind" then some kindDesc else none }

/-- The value `GetTypeInfo` returns for `pkg.Inner` in `samplePool`. -/
def innerInfo : TypeInfo :=
  .mk 0 "Inner"
    [{ Name := "flag", Number := 1, Label := 1, Typ := .mk 8 "bool" [] none
       Enum := { Name := "", Values := [] }, Options := none }]
    (some { raw := [8, 1] })

/-- The value `GetTypeInfo` returns for `pkg.HelloRequest` in `samplePool`. -/
def helloRequestInfo : TypeInfo :=
  .mk 0 "HelloRequest"
    [ { Name := "count", Number := 1, Label := 1, Typ := .mk 5 "int32" [] none
        Enum := { Name := "", Values := [] }, Options := none },
      { Name := "kind", Number := 2, Label := 1, Typ := .mk 14 "enum" [] none
        Enum := { Name := "Kind", Values := [{ Name := "A", Number := 0 },
                                              { Name := "B", Number := 1 }] }
        Options := none },
      { Name := "inner", Number := 3, Label := 3
        Typ := .mk 11 "Inner" innerInfo.Fields (some { raw := [8, 1] })
        Enum := { Name := "", Values := [] }, Options := some { raw := [16, 1] } },
      { Name := "ghost", Number := 4, Label := 1, Typ := .mk 11 "missing.Type" [] none
        Enum := { Name := "", Values := [] }, Options := none },
      { Name := "lost", Number := 5, Label := 1, Typ := .mk 14 "enum" [] none
        Enum := { Name := "", Values := [] }, Options := none } ]
    none

/-- The value `GetTypeInfo` returns for `pkg.Outer` in `samplePool`. -/
def outerInfo : TypeInfo :=
  .mk 0 "Outer"
    [{ Name := "req", Number := 1, Label := 1
       Typ := .mk 11 "HelloRequest" helloRequestInfo.Fields none
       Enum := { Name := "", Values := [] }, Options := none }]
    none

/-- A message whose only field refers to the message itself. -/
def nodeDesc : DescriptorProto :=
  { Name := "Node"
    Field := [{ Name := "next", Number := 1, Label := 1, Typ := 11, TypeName := "pkg.Node",
                Options := none }]
    Options := none }

/-- A pool whose one message type is self-referential. -/
def cyclicPool : descPool :=
  { connect := none
    getServicesDescriptors := .ok []
    getTypeDescriptor := fun s => if s = "pkg.Node" then some nodeDesc else none
    getEnumDescriptor := fun _ => none }

/-- A message whose scalar field carries a type code outside the name table. -/
def oddDesc : DescriptorProto :=
  { Name := "Odd"
    Field := [{ Name := "x", Number := 1, Label := 1, Typ := 123456, TypeName := "",
                Options := none }]
    Options := none }

/-- A pool that knows only `oddDesc`. -/
def oddPool : descPool :=
  { connect := none
    getServicesDescriptors := .ok []
    getTypeDescriptor := fun s => if s = "pkg.Odd" then some oddDesc else none
    getEnumDescriptor := fun _ => none }

/-- A message whose field is classified message (code 11) while its type name is
the name of an enum. -/
def mixedDesc : DescriptorProto :=
  { Name := "Mixed"
    Field := [{ Name := "k", Number := 1, Label := 1, Typ := 11, TypeName := "pkg.Kind",
                Options := none }]
    Options := none }

/-- A pool that knows the message `mixedDesc` and the enum `kindDesc`. -/
def mixedPool : descPool :=
  { connect := none
    getServicesDescriptors := .ok []
    getTypeDescriptor := fun s => if s = "pkg.Mixed" then some mixedDesc else none
    getEnumDescriptor := fun s => if s = "pkg.Kind" then some kindDesc else none }

/-- The value `GetTypeInfo` returns for `pkg.Mixed` in `mixedPool`. -/
def mixedInfo : TypeInfo :=
  .mk 0 "Mixed"
    [{ Name := "k", Number := 1, Label := 1, Typ := .mk 11 "pkg.Kind" [] none
       Enum := { Name := "", Values := [] }, Options := none }]
    none

/-- The value `GetTypeInfo` returns for `pkg.HelloReply` in `samplePool`. -/
def helloReplyInfo : TypeInfo :=
  .mk 0 "HelloReply"
    [{ Name := "message", Number := 1, Label := 1, Typ := .mk 9 "string" [] none
       Enum := { Name := "", Values := [] }, Options := none }]
    none

/-- The service list `GetInfo` returns for `samplePool`. -/
def sampleServices : List Service :=
  [ { Name := "Greeter", PackageName := "pkg.Greeter"
      Methods :=
        [ { Name := "SayHello", In := helloRequestInfo, Out := helloReplyInfo
            InStream := false, OutStream := false },
          { Name := "Watch", In := .mk 0 "missing.Type" [] none, Out := innerInfo
            InStream := false, OutStream := true } ] },
    { Name := "ServerReflection", PackageName := "grpc.reflection.v1alpha2", Methods := [] } ]

/-! ## Positions in a result tree -/

/-- The relation `Expands pool d t f fi`: in the tree `t` built for the message
descriptor `d`, the declared field `f` is represented by the `FieldInfo` `fi`, either
directly (`direct`) or inside the `Type` of a field whose type name the pool resolves to
a message (`nested`), at any depth. -/
inductive Expands (pool : descPool) :
    DescriptorProto → TypeInfo → FieldDescriptorProto → FieldInfo → Prop where
  | direct (d : DescriptorProto) (t : TypeInfo) (i : Nat) (f : FieldDescriptorProto)
      (fi : FieldInfo) :
      d.Field[i]? = some f → t.Fields[i]? = some fi → Expands pool d t f fi
  | nested (d : DescriptorProto) (t : TypeInfo) (i : Nat) (g : FieldDescriptorProto)
      (gi : FieldInfo) (d2 : DescriptorProto) (f : FieldDescriptorProto) (fi : FieldInfo) :
      d.Field[i]? = some g → t.Fields[i]? = some gi → g.TypeName ≠ "" →
      pool.getTypeDescriptor g.TypeName = some d2 →
      Expands pool d2 gi.Typ f fi → Expands pool d t f fi

/-! ## Service maps used for the package filter -/

/-- The service `Greeter` with the single unary method `SayHello`. -/
def sayHelloDesc : ServiceDescriptorProto :=
  { Name := some "Greeter"
    Method :=
      [ { Name := "SayHello", InputType := "pkg.HelloRequest", OutputType := "pkg.HelloReply",
          ClientStreaming := false, ServerStreaming := false } ] }

/-- The pool `samplePool` with one listed service, keyed by the dotted name
`grpc.reflection.v1alpha.ServerReflection`. -/
def dottedReflectionPool : descPool :=
  { samplePool with
    getServicesDescriptors :=
      .ok [("grpc.reflection.v1alpha.ServerReflection", emptyServiceDesc)] }

/-- The pool `samplePool` with one listed service, keyed
`grpc.reflection.v1alpha/ServerReflection`. -/
def slashReflectionPool : descPool :=
  { samplePool with
    getServicesDescriptors :=
      .ok [("grpc.reflection.v1alpha/ServerReflection", emptyServiceDesc)] }

/-- The pool `samplePool` with one listed service whose key is the bare string
`grpc.reflection.v1alpha`. -/
def bareReflectionPool : descPool :=
  { samplePool with
    getServicesDescriptors := .ok [("grpc.reflection.v1alpha", emptyServiceDesc)] }

/-- The pool `samplePool` with the one service `Greeter`, keyed `pkg.Greeter`. -/
def dottedGreeterPool : descPool :=
  { samplePool with getServicesDescriptors := .ok [("pkg.Greeter", sayHelloDesc)] }

/-- The pool `samplePool` with the one service `Greeter`, keyed `pkg/Greeter`. -/
def slashGreeterPool : descPool :=
  { samplePool with getServicesDescriptors := .ok [("pkg/Greeter", sayHelloDesc)] }

/-- The pool `samplePool` with the one service `Greeter`, keyed by the single
segment `Greeter`. -/
def bareGreeterPool : descPool :=
  { samplePool with getServicesDescriptors := .ok [("Greeter", sayHelloDesc)] }

/-- The `Method` built for `SayHello` in `samplePool`. -/
def sayHelloMethod : Method :=
  { Name := "SayHello", In := helloRequestInfo, Out := helloReplyInfo
    InStream := false, OutStream := false }

/-- A pool whose connection succeeds and whose service listing fails. -/
def listingErrorPool : descPool :=
  { samplePool with getServicesDescriptors := .error { msg := "list services failed" } }

/-- A pool whose connection fails. -/
def unreachablePool : descPool :=
  { samplePool with connect := some { msg := "connection refused" } }

/-! ## The reference graph of a pool -/

/-- The relation `Refers pool a b`: the pool resolves `a` to a message one of whose
fields declares the non-empty type name `b` (the field on which `GetTypeInfo` recurses). -/
def Refers (pool : descPool) (a b : String) : Prop :=
  ∃ (d : DescriptorProto) (f : FieldDescriptorProto),
    pool.getTypeDescriptor a = some d ∧ f ∈ d.Field ∧ f.TypeName ≠ "" ∧ f.TypeName = b

/-- The property that the slice `String()[5:]` is in range for every field without a
type name in every message the pool resolves. -/
def SliceSafe (pool : descPool) : Prop :=
  ∀ (name : String) (d : DescriptorProto), pool.getTypeDescriptor name = some d →
    ∀ f ∈ d.Field, f.TypeName = "" → 5 ≤ (FieldDescriptorProto_Type_String f.Typ).data.length

/-- A self-referential message whose first field is a scalar with the undefined
type code 0. -/
def badNodeDesc : DescriptorProto :=
  { Name := "Bad"
    Field := [ { Name := "x", Number := 1, Label := 1, Typ := 0, TypeName := "",
                 Options := none },
               { Name := "next", Number := 2, Label := 1, Typ := 11, TypeName := "pkg.Bad",
                 Options := none } ]
    Options := none }

/-- A pool that knows only `badNodeDesc`. -/
def badCyclicPool : descPool :=
  { connect := none
    getServicesDescriptors := .ok []
    getTypeDescriptor := fun s => if s = "pkg.Bad" then some badNodeDesc else none
    getEnumDescriptor := fun _ => none }

/-- The relation `Chain pool name c`: `c` is a reference chain that starts at `name`,
a list of type names the pool resolves to messages, each referring to the next through
a type-named field. -/
inductive Chain (pool : descPool) : String → List String → Prop where
  | single (name : String) (d : DescriptorProto) :
      pool.getTypeDescriptor name = some d → Chain pool name [name]
  | cons (name : String) (d : DescriptorProto) (f : FieldDescriptorProto) (c : List String) :
      pool.getTypeDescriptor name = some d → f ∈ d.Field → f.TypeName ≠ "" →
      Chain pool f.TypeName c → Chain pool name (name :: c)

mutual
/-- The nesting depth of a `TypeInfo`: the number of nested field lists, 0 for a
node without fields. -/
def TypeInfo.depth : TypeInfo → Nat
  | .mk _ _ fs _ => fieldsDepth fs
/-- The nesting depth contributed by a field list. -/
def fieldsDepth : List FieldInfo → Nat
  | [] => 0
  | fi :: rest => max (fieldDepth fi + 1) (fieldsDepth rest)
/-- The nesting depth of the `Type` of a field. -/
def fieldDepth : FieldInfo → Nat
  | ⟨_, _, _, t, _, _⟩ => t.depth
end

/-- A message whose only field is a scalar with the undefined type code 0. -/
def zeroCodeDesc : DescriptorProto :=
  { Name := "Zero"
    Field := [{ Name := "x", Number := 1, Label := 1, Typ := 0, TypeName := "",
                Options := none }]
    Options := none }

/-- A pool that knows only `zeroCodeDesc`. -/
def zeroCodePool : descPool :=
  { connect := none
    getServicesDescriptors := .ok []
    getTypeDescriptor := fun s => if s = "pkg.Zero" then some zeroCodeDesc else none
    getEnumDescriptor := fun _ => none }

/-- A message whose field is classified enum (code 14) while its type name is the
name of a message. -/
def holderDesc : DescriptorProto :=
  { Name := "Holder"
    Field := [{ Name := "k", Number := 1, Label := 1, Typ := 14, TypeName := "pkg.Inner",
                Options := none }]
    Options := none }

/-- The pool `samplePool` extended with `holderDesc`. -/
def holderPool : descPool :=
  { samplePool with
    getTypeDescriptor := fun s =>
      if s = "pkg.Holder" then some holderDesc else samplePool.getTypeDescriptor s }

/-- The value `GetTypeInfo` returns for `pkg.Holder` in `holderPool`. -/
def holderInfo : TypeInfo :=
  .mk 0 "Holder"
    [{ Name := "k", Number := 1, Label := 1
       Typ := .mk 14 "enum" innerInfo.Fields (some { raw := [8, 1] })
       Enum := { Name := "", Values := [] }, Options := none }]
    none

/-! ## The calls `GetInfo` makes on the pool -/

/-- One call on the pool: `connect`, `disconnect`, `getServicesDescriptors`,
`getTypeDescriptor(typeName)` or `getEnumDescriptor(typeName)`. -/
inductive Event where
  | connect
  | disconnect
  | getServicesDescriptors
  | getTypeDescriptor (typeName : String)
  | getEnumDescriptor (typeName : String)
  deriving DecidableEq, Repr

/-- The two lookups made while a type is resolved. -/
def Event.isLookup : Event → Bool
  | .getTypeDescriptor _ => true
  | .getEnumDescriptor _ => true
  | _ => false

/-- Lines 120-131 with the pool calls made so far; `recur` is the recursive call. -/
def traceFieldType (recur : String → List Event × Except Fault TypeInfo)
    (field : FieldDescriptorProto) : List Event × Except Fault TypeInfo :=
  if field.TypeName ≠ "" then
    match recur field.TypeName with
    | (tr, .ok t) => (tr, .ok (t.setId field.Typ))
    | (tr, .error e) => (tr, .error e)
  else ([], scalarTypeInfo field.Typ)

/-- One iteration of the loop at lines 114-146 with its pool calls: those of the
recursive call, then `getEnumDescriptor` when the field is classified enum (line 135). -/
def traceField (pool : descPool) (recur : String → List Event × Except Fault TypeInfo)
    (field : FieldDescriptorProto) : List Event × Except Fault FieldInfo :=
  match traceFieldType recur field with
  | (tr, .error e) => (tr, .error e)
  | (tr, .ok ty) =>
    (tr ++ (if field.Typ = FieldDescriptorProto_TYPE_ENUM
              then [Event.getEnumDescriptor field.TypeName] else []),
     .ok { Name := field.Name
           Number := field.Number
           Label := field.Label
           Options := field.Options
           Typ := if field.Typ = FieldDescriptorProto_TYPE_ENUM then ty.setName "enum" else ty
           Enum := enumInfoOf pool field.Typ field.TypeName })

/-- The loop at lines 114-146 with its pool calls, in order. -/
def traceFields (pool : descPool) (recur : String → List Event × Except Fault TypeInfo) :
    List FieldDescriptorProto → List Event × Except Fault (List FieldInfo)
  | [] => ([], .ok [])
  | field :: rest =>
    match traceField pool recur field with
    | (tr, .error e) => (tr, .error e)
    | (tr, .ok fi) =>
      match traceFields pool recur rest with
      | (tr2, .error e) => (tr ++ tr2, .error e)
      | (tr2, .ok fis) => (tr ++ tr2, .ok (fi :: fis))

/-- The function `GetTypeInfo` with the pool calls it makes: line 98 first, then those
of the field loop. -/
def GetTypeInfoTrace : Nat → descPool → String → List Event × Except Fault TypeInfo
  | 0, _, _ => ([], .error .fuel)
  | n + 1, pool, typeName =>
    match pool.getTypeDescriptor typeName with
    | none => ([Event.getTypeDescriptor typeName], .ok (.mk 0 typeName [] none))
    | some desc =>
      match traceFields pool (GetTypeInfoTrace n pool) desc.Field with
      | (tr, .error e) => (Event.getTypeDescriptor typeName :: tr, .error e)
      | (tr, .ok fields) =>
        (Event.getTypeDescriptor typeName :: tr, .ok (.mk 0 desc.Name fields desc.Options))

/-- The loop at lines 79-89 with its pool calls. -/
def traceMethods (n : Nat) (pool : descPool) :
    List MethodDescriptorProto → List Event × Except Fault (List Method)
  | [] => ([], .ok [])
  | method :: rest =>
    match GetTypeInfoTrace n pool method.InputType with
    | (tr1, .error e) => (tr1, .error e)
    | (tr1, .ok tin) =>
      match GetTypeInfoTrace n pool method.OutputType with
      | (tr2, .error e) => (tr1 ++ tr2, .error e)
      | (tr2, .ok tout) =>
        match traceMethods n pool rest with
        | (tr3, .error e) => (tr1 ++ tr2 ++ tr3, .error e)
        | (tr3, .ok ms) =>
          (tr1 ++ tr2 ++ tr3,
           .ok ({ Name := method.Name, In := tin, Out := tout
                  InStream := method.ClientStreaming
                  OutStream := method.ServerStreaming } :: ms))

/-- The loop at lines 66-92 with its pool calls. -/
def traceServices (n : Nat) (pool : descPool) :
    List (String × ServiceDescriptorProto) → List Event × Except Fault (List Service)
  | [] => ([], .ok [])
  | (sname, descr) :: rest =>
    let packageName := packageNameOf sname
    if packageName = "grpc.reflection.v1alpha" then traceServices n pool rest
    else
      match descr.Name with
      | none => ([], .error .nilDeref)
      | some name =>
        match traceMethods n pool descr.Method with
        | (tr, .error e) => (tr, .error e)
        | (tr, .ok methods) =>
          match traceServices n pool rest with
          | (tr2, .error e) => (tr ++ tr2, .error e)
          | (tr2, .ok res) =>
            (tr ++ tr2,
             .ok ({ Name := name, PackageName := packageName, Methods := methods } :: res))

/-- The function `GetInfo` with the pool calls it makes.  The deferred
`pool.disconnect()` of line 58 runs when the function returns and when it panics; a
call whose recursion never ends (`Fault.fuel`) does not reach it. -/
def GetInfoTrace (n : Nat) (pool : descPool) :
    List Event × Except Fault (Except Error (List Service)) :=
  match pool.connect with
  | some err => ([Event.connect], .ok (.error err))
  | none =>
    match pool.getServicesDescriptors with
    | .error err =>
      ([Event.connect, Event.getServicesDescriptors, Event.disconnect], .ok (.error err))
    | .ok services =>
      match traceServices n pool services with
      | (tr, .error .fuel) =>
        (Event.connect :: Event.getServicesDescriptors :: tr, .error .fuel)
      | (tr, .error e) =>
        (Event.connect :: Event.getServicesDescriptors :: (tr ++ [Event.disconnect]), .error e)
      | (tr, .ok res) =>
        (Event.connect :: Event.getServicesDescriptors :: (tr ++ [Event.disconnect]),
         .ok (.ok res))

/-! ## One service map enumerated in two orders -/

/-- A service named `S` without methods. -/
def serviceS : ServiceDescriptorProto := { Name := some "S", Method := [] }

/-- A service named `T` without methods. -/
def serviceT : ServiceDescriptorProto := { Name := some "T", Method := [] }

/-- The pool `samplePool` whose service map `a/S`, `b/T` is enumerated `a/S` first. -/
def orderPoolA : descPool :=
  { samplePool with getServicesDescriptors := .ok [("a/S", serviceS), ("b/T", serviceT)] }

/-- The pool `samplePool` whose service map `a/S`, `b/T` is enumerated `b/T` first. -/
def orderPoolB : descPool :=
  { samplePool with getServicesDescriptors := .ok [("b/T", serviceT), ("a/S", serviceS)] }

/-! ## When the service loop completes -/

/-- The condition under which the loop at lines 66-92 completes at call depth `n`:
every entry that passes the package filter has a descriptor with a name (line 75),
and `GetTypeInfo` returns for the input and the output type of each of its methods
(lines 83-84). -/
def ServicesResolve (n : Nat) (pool : descPool)
    (svcs : List (String × ServiceDescriptorProto)) : Prop :=
  ∀ e ∈ svcs, packageNameOf e.1 ≠ "grpc.reflection.v1alpha" →
    (∃ name, e.2.Name = some name) ∧
    ∀ m ∈ e.2.Method,
      (∃ t, GetTypeInfo n pool m.InputType = .ok t) ∧
      (∃ t, GetTypeInfo n pool m.OutputType = .ok t)

/-- A service whose method takes and returns the self-referential `pkg.Node`. -/
def treeServiceDesc : ServiceDescriptorProto :=
  { Name := some "Tree"
    Method := [{ Name := "Walk", InputType := "pkg.Node", OutputType := "pkg.Node",
                 ClientStreaming := false, ServerStreaming := false }] }

/-- The pool `cyclicPool` listing the service `treeServiceDesc`. -/
def cyclicServicePool : descPool :=
  { cyclicPool with getServicesDescriptors := .ok [("pkg/Tree", treeServiceDesc)] }

/-- A service descriptor whose `Name` pointer is nil. -/
def namelessServiceDesc : ServiceDescriptorProto :=
  { Name := none, Method := [] }

/-- The pool `samplePool` listing the one service `namelessServiceDesc`. -/
def namelessServicePool : descPool :=
  { samplePool with getServicesDescriptors := .ok [("pkg/Anon", namelessServiceDesc)] }

/-- A service whose method takes and returns `pkg.Zero`, the message with a scalar
field of type code 0. -/
def zeroServiceDesc : ServiceDescriptorProto :=
  { Name := some "Zero"
    Method := [{ Name := "Get", InputType := "pkg.Zero", OutputType := "pkg.Zero",
                 ClientStreaming := false, ServerStreaming := false }] }

/-- The pool `zeroCodePool` listing the service `zeroServiceDesc`. -/
def zeroServicePool : descPool :=
  { zeroCodePool with getServicesDescriptors := .ok [("pkg/Zero", zeroServiceDesc)] }

/-- A pool that knows the self-referential `nodeDesc` and, unrelated to it,
`zeroCodeDesc`. -/
def nodeAndZeroPool : descPool :=
  { connect := none
    getServicesDescriptors := .ok []
    getTypeDescriptor := fun s =>
      if s = "pkg.Node" then some nodeDesc
      else if s = "pkg.Zero" then some zeroCodeDesc
      else none
    getEnumDescriptor := fun _ => none }

/-! ## Shared lemmas -/

theorem forall₂_getElem? {α β : Type} {R : α → β → Prop} {xs : List α} {ys : List β}
    (h : List.Forall₂ R xs ys) :
    ∀ (i : Nat) (x : α), xs[i]? = some x → ∃ y, ys[i]? = some y ∧ R x y := by
  induction h with
  | nil => intro i x hx; simp at hx
  | cons hab _ ih =>
    intro i x hx
    cases i with
    | zero =>
      simp only [List.getElem?_cons_zero, Option.some.injEq] at hx
      subst hx
      exact ⟨_, by simp, hab⟩
    | succ j =>
      simp only [List.getElem?_cons_succ] at hx
      obtain ⟨y, hy, hr⟩ := ih j x hx
      exact ⟨y, by simpa using hy, hr⟩

theorem buildFields_forall₂ (pool : descPool) (recur : String → Except Fault TypeInfo) :
    ∀ (fs : List FieldDescriptorProto) (fis : List FieldInfo),
      buildFields pool recur fs = .ok fis →
      List.Forall₂ (fun f fi => buildField pool recur f = .ok fi) fs fis := by
  intro fs
  induction fs with
  | nil =>
    intro fis h
    simp only [buildFields, Except.ok.injEq] at h
    subst h
    exact List.Forall₂.nil
  | cons f rest ih =>
    intro fis h
    simp only [buildFields] at h
    cases hf : buildField pool recur f with
    | error e => simp [hf] at h
    | ok fi =>
      cases hr : buildFields pool recur rest with
      | error e => simp [hf, hr] at h
      | ok fis' =>
        simp only [hf, hr, Except.ok.injEq] at h
        subst h
        exact List.Forall₂.cons hf (ih fis' hr)

theorem buildFields_of_forall₂ (pool : descPool) (recur : String → Except Fault TypeInfo) :
    ∀ (fs : List FieldDescriptorProto) (fis : List FieldInfo),
      List.Forall₂ (fun f fi => buildField pool recur f = .ok fi) fs fis →
      buildFields pool recur fs = .ok fis := by
  intro fs fis h
  induction h with
  | nil => rfl
  | cons hab _ ih => simp [buildFields, hab, ih]

theorem buildField_ok_of_type (pool : descPool) (recur : String → Except Fault TypeInfo)
    (f : FieldDescriptorProto) (t : TypeInfo) (h : fieldTypeInfo recur f = .ok t) :
    ∃ fi, buildField pool recur f = .ok fi := by
  simp [buildField, h]

theorem buildFields_ok_of_types (pool : descPool) (recur : String → Except Fault TypeInfo) :
    ∀ (fs : List FieldDescriptorProto),
      (∀ f ∈ fs, ∃ t, fieldTypeInfo recur f = .ok t) →
      ∃ fis, buildFields pool recur fs = .ok fis := by
  intro fs
  induction fs with
  | nil => intro _; exact ⟨[], rfl⟩
  | cons f rest ih =>
    intro h
    obtain ⟨t, ht⟩ := h f (List.mem_cons_self _ _)
    obtain ⟨fi, hfi⟩ := buildField_ok_of_type pool recur f t ht
    obtain ⟨fis, hfis⟩ := ih (fun g hg => h g (List.mem_cons_of_mem _ hg))
    exact ⟨fi :: fis, by simp [buildFields, hfi, hfis]⟩

/-- The unresolved branch of `GetTypeInfo` (lines 101-106). -/
theorem unresolved_call (pool : descPool) (typeName : String) (n : Nat)
    (h : pool.getTypeDescriptor typeName = none) :
    GetTypeInfo (n + 1) pool typeName = .ok (.mk 0 typeName [] none) := by
  simp [GetTypeInfo, h]

/-- A successful `GetTypeInfo` call on a resolved name ran the field loop. -/
theorem resolved_call_inv (pool : descPool) (n : Nat) (typeName : String)
    (d : DescriptorProto) (r : TypeInfo)
    (hd : pool.getTypeDescriptor typeName = some d)
    (hr : GetTypeInfo n pool typeName = .ok r) :
    ∃ m fields, n = m + 1 ∧ buildFields pool (GetTypeInfo m pool) d.Field = .ok fields ∧
      r = .mk 0 d.Name fields d.Options := by
  cases n with
  | zero => simp [GetTypeInfo] at hr
  | succ m =>
    simp only [GetTypeInfo, hd] at hr
    cases hb : buildFields pool (GetTypeInfo m pool) d.Field with
    | error e => simp [hb] at hr
    | ok fields =>
      simp only [hb, Except.ok.injEq] at hr
      exact ⟨m, fields, rfl, hb, hr.symm⟩

/-- Every field of a successful call was produced by one loop iteration. -/
theorem GetTypeInfo_field (pool : descPool) (n : Nat) (typeName : String)
    (d : DescriptorProto) (r : TypeInfo)
    (hd : pool.getTypeDescriptor typeName = some d)
    (hr : GetTypeInfo n pool typeName = .ok r)
    (i : Nat) (f : FieldDescriptorProto) (hf : d.Field[i]? = some f) :
    ∃ m fi, n = m + 1 ∧ r.Fields[i]? = some fi ∧
      buildField pool (GetTypeInfo m pool) f = .ok fi := by
  obtain ⟨m, fields, hn, hb, hr'⟩ := resolved_call_inv pool n typeName d r hd hr
  obtain ⟨fi, hfi, hbf⟩ := forall₂_getElem? (buildFields_forall₂ pool _ _ _ hb) i f hf
  subst hr'
  exact ⟨m, fi, hn, hfi, hbf⟩

/-! ### The result does not depend on the budget once it suffices -/

theorem fieldTypeInfo_named (recur : String → Except Fault TypeInfo)
    (f : FieldDescriptorProto) (h : f.TypeName ≠ "") :
    fieldTypeInfo recur f =
      match recur f.TypeName with
      | .ok t => .ok (t.setId f.Typ)
      | .error e => .error e := by
  unfold fieldTypeInfo
  rw [if_pos h]

theorem fieldTypeInfo_scalar (recur : String → Except Fault TypeInfo)
    (f : FieldDescriptorProto) (h : f.TypeName = "") :
    fieldTypeInfo recur f = scalarTypeInfo f.Typ := by
  unfold fieldTypeInfo
  rw [if_neg (not_not.mpr h)]

theorem fieldTypeInfo_mono (recur recur2 : String → Except Fault TypeInfo)
    (h : ∀ s t, recur s = .ok t → recur2 s = .ok t)
    (f : FieldDescriptorProto) (t : TypeInfo)
    (ht : fieldTypeInfo recur f = .ok t) : fieldTypeInfo recur2 f = .ok t := by
  by_cases hn : f.TypeName = ""
  · rw [fieldTypeInfo_scalar _ f hn] at ht ⊢
    exact ht
  · rw [fieldTypeInfo_named _ f hn] at ht ⊢
    cases hr : recur f.TypeName with
    | error e => simp [hr] at ht
    | ok t0 =>
      simp only [hr, Except.ok.injEq] at ht
      simp [h _ _ hr, ht]

theorem buildField_mono (pool : descPool) (recur recur2 : String → Except Fault TypeInfo)
    (h : ∀ s t, recur s = .ok t → recur2 s = .ok t)
    (f : FieldDescriptorProto) (fi : FieldInfo)
    (hf : buildField pool recur f = .ok fi) : buildField pool recur2 f = .ok fi := by
  unfold buildField at hf ⊢
  cases ht : fieldTypeInfo recur f with
  | error e => simp [ht] at hf
  | ok t =>
    rw [fieldTypeInfo_mono recur recur2 h f t ht]
    simpa [ht] using hf

theorem buildFields_mono (pool : descPool) (recur recur2 : String → Except Fault TypeInfo)
    (h : ∀ s t, recur s = .ok t → recur2 s = .ok t)
    (fs : List FieldDescriptorProto) (fis : List FieldInfo)
    (hf : buildFields pool recur fs = .ok fis) : buildFields pool recur2 fs = .ok fis := by
  apply buildFields_of_forall₂
  exact (buildFields_forall₂ pool recur fs fis hf).imp
    (fun {f} {fi} hb => buildField_mono pool recur recur2 h f fi hb)

theorem GetTypeInfo_succ (pool : descPool) :
    ∀ (n : Nat) (typeName : String) (r : TypeInfo),
      GetTypeInfo n pool typeName = .ok r → GetTypeInfo (n + 1) pool typeName = .ok r := by
  intro n
  induction n with
  | zero => intro typeName r h; simp [GetTypeInfo] at h
  | succ m ih =>
    intro typeName r h
    cases hd : pool.getTypeDescriptor typeName with
    | none =>
      simp only [GetTypeInfo, hd] at h ⊢
      exact h
    | some d =>
      obtain ⟨m', fields, hn, hb, hr⟩ := resolved_call_inv pool _ typeName d r hd h
      have hm : m' = m := by omega
      subst hm
      have hb2 := buildFields_mono pool (GetTypeInfo m' pool) (GetTypeInfo (m' + 1) pool)
        (ih) d.Field fields hb
      rw [GetTypeInfo]
      simp [hd, hb2, hr]

theorem GetTypeInfo_mono (pool : descPool) (n k : Nat) (typeName : String) (r : TypeInfo)
    (h : GetTypeInfo n pool typeName = .ok r) : GetTypeInfo (n + k) pool typeName = .ok r := by
  induction k with
  | zero => exact h
  | succ j ih => exact GetTypeInfo_succ pool (n + j) typeName r ih

/-! ### What one loop iteration writes -/

theorem buildField_inv (pool : descPool) (recur : String → Except Fault TypeInfo)
    (f : FieldDescriptorProto) (fi : FieldInfo) (h : buildField pool recur f = .ok fi) :
    ∃ ty, fieldTypeInfo recur f = .ok ty ∧
      fi.Name = f.Name ∧ fi.Number = f.Number ∧ fi.Label = f.Label ∧ fi.Options = f.Options ∧
      fi.Typ = (if f.Typ = FieldDescriptorProto_TYPE_ENUM then ty.setName "enum" else ty) ∧
      fi.Enum = enumInfoOf pool f.Typ f.TypeName := by
  unfold buildField at h
  cases ht : fieldTypeInfo recur f with
  | error e => simp [ht] at h
  | ok ty =>
    simp only [ht, Except.ok.injEq] at h
    subst h
    exact ⟨ty, rfl, rfl, rfl, rfl, rfl, rfl, rfl⟩

theorem cyclicPool_diverges : ∀ n, GetTypeInfo n cyclicPool "pkg.Node" = .error .fuel := by
  intro n
  induction n with
  | zero => rfl
  | succ m ih =>
    have hd : cyclicPool.getTypeDescriptor "pkg.Node" = some nodeDesc := rfl
    have hf : fieldTypeInfo (GetTypeInfo m cyclicPool)
        { Name := "next", Number := 1, Label := 1, Typ := 11, TypeName := "pkg.Node",
          Options := none } = .error .fuel := by
      rw [fieldTypeInfo_named _ _ (by decide)]
      simp only [ih]
    simp only [GetTypeInfo, hd, nodeDesc, buildFields, buildField, hf]

/-! ## C1 -/

/-- C1, counterexample: `cyclicPool` resolves `pkg.Node` to a message descriptor, yet
`GetTypeInfo` returns no `TypeInfo` for it at any call depth. -/
theorem cyclic_type_no_return :
    cyclicPool.getTypeDescriptor "pkg.Node" = some nodeDesc ∧
      ¬ ∃ n r, GetTypeInfo n cyclicPool "pkg.Node" = .ok r := by
  refine ⟨rfl, ?_⟩
  rintro ⟨n, r, h⟩
  rw [cyclicPool_diverges n] at h
  cases h

/-- C1, amended: when the pool resolves `typeName` to the descriptor `d`, every
`TypeInfo` that `GetTypeInfo` returns has `d`'s name and options and exactly one
`FieldInfo` per declared field, the `i`-th carrying the name, number, label and options
of `d`'s `i`-th field; and the call does return as soon as the type of every declared
field can be computed one level down. -/
theorem GetTypeInfo_resolved (pool : descPool) (typeName : String) (d : DescriptorProto)
    (hd : pool.getTypeDescriptor typeName = some d) :
    (∀ n r, GetTypeInfo n pool typeName = .ok r →
      r.Name = d.Name ∧ r.Options = d.Options ∧ r.Fields.length = d.Field.length ∧
      ∀ (i : Nat) (f : FieldDescriptorProto), d.Field[i]? = some f →
        ∃ fi : FieldInfo, r.Fields[i]? = some fi ∧ fi.Name = f.Name ∧ fi.Number = f.Number ∧
          fi.Label = f.Label ∧ fi.Options = f.Options) ∧
    (∀ n, (∀ f ∈ d.Field, ∃ t, fieldTypeInfo (GetTypeInfo n pool) f = .ok t) →
      ∃ r, GetTypeInfo (n + 1) pool typeName = .ok r) := by
  constructor
  · intro n r hr
    obtain ⟨m, fields, _, hb, hr'⟩ := resolved_call_inv pool n typeName d r hd hr
    have hall := buildFields_forall₂ pool _ _ _ hb
    refine ⟨by rw [hr']; rfl, by rw [hr']; rfl, ?_, ?_⟩
    · rw [hr']
      exact hall.length_eq.symm
    · intro i f hf
      obtain ⟨fi, hfi, hbf⟩ := forall₂_getElem? hall i f hf
      obtain ⟨_, _, h1, h2, h3, h4, _, _⟩ := buildField_inv pool _ f fi hbf
      exact ⟨fi, by rw [hr']; exact hfi, h1, h2, h3, h4⟩
  · intro n hall
    obtain ⟨fis, hfis⟩ := buildFields_ok_of_types pool (GetTypeInfo n pool) d.Field hall
    exact ⟨.mk 0 d.Name fis d.Options, by simp [GetTypeInfo, hd, hfis]⟩

/-- C1, witness: the theorem at `samplePool` and `pkg.HelloRequest`. -/
theorem GetTypeInfo_resolved_witness :
    samplePool.getTypeDescriptor "pkg.HelloRequest" = some helloRequestDesc ∧
    GetTypeInfo 2 samplePool "pkg.HelloRequest" = .ok helloRequestInfo ∧
    (helloRequestInfo.Name = helloRequestDesc.Name ∧
      helloRequestInfo.Options = helloRequestDesc.Options ∧
      helloRequestInfo.Fields.length = helloRequestDesc.Field.length ∧
      ∀ (i : Nat) (f : FieldDescriptorProto), helloRequestDesc.Field[i]? = some f →
        ∃ fi : FieldInfo, helloRequestInfo.Fields[i]? = some fi ∧ fi.Name = f.Name ∧
          fi.Number = f.Number ∧ fi.Label = f.Label ∧ fi.Options = f.Options) :=
  ⟨rfl, rfl,
    (GetTypeInfo_resolved samplePool "pkg.HelloRequest" helloRequestDesc rfl).1 2
      helloRequestInfo rfl⟩

/-! ## C2 -/

/-- C2: when the pool cannot resolve `typeName` (any string, the empty one included),
`GetTypeInfo` returns exactly the error `TypeInfo`: `Id` 0, `Name` the given string,
no fields, no options. -/
theorem GetTypeInfo_unresolved (pool : descPool) (typeName : String) (n : Nat)
    (h : pool.getTypeDescriptor typeName = none) :
    GetTypeInfo (n + 1) pool typeName = .ok (.mk 0 typeName [] none) :=
  unresolved_call pool typeName n h

/-- C2, witness: `missing.Type` in `samplePool`. -/
theorem GetTypeInfo_unresolved_witness :
    samplePool.getTypeDescriptor "missing.Type" = none ∧
    GetTypeInfo 1 samplePool "missing.Type" = .ok (.mk 0 "missing.Type" [] none) :=
  ⟨rfl, GetTypeInfo_unresolved samplePool "missing.Type" 0 rfl⟩

/-! ## C3 -/

/-- C3: in a `TypeInfo` returned for a resolved message, a field `f` that declares a
non-empty type name `t` has as `Type` the value `GetTypeInfo` returns for `t`, with `Id`
replaced by `f`'s own classification code and, only when that code is enum, `Name`
replaced by `"enum"`; `Fields` and `Options` (and otherwise `Name`) are those of the
nested result. -/
theorem field_type_named (pool : descPool) (n : Nat) (typeName : String)
    (d : DescriptorProto) (r : TypeInfo)
    (hd : pool.getTypeDescriptor typeName = some d)
    (hr : GetTypeInfo n pool typeName = .ok r)
    (i : Nat) (f : FieldDescriptorProto) (hf : d.Field[i]? = some f)
    (ht : f.TypeName ≠ "") :
    ∃ (fi : FieldInfo) (t : TypeInfo),
      r.Fields[i]? = some fi ∧ GetTypeInfo n pool f.TypeName = .ok t ∧
      fi.Typ = .mk f.Typ (if f.Typ = FieldDescriptorProto_TYPE_ENUM then "enum" else t.Name)
        t.Fields t.Options ∧
      fi.Typ.Id = f.Typ := by
  obtain ⟨m, fi, hn, hfi, hb⟩ := GetTypeInfo_field pool n typeName d r hd hr i f hf
  obtain ⟨ty, hty, _, _, _, _, htyp, _⟩ := buildField_inv pool _ f fi hb
  rw [fieldTypeInfo_named _ f ht] at hty
  cases hrec : GetTypeInfo m pool f.TypeName with
  | error e => simp [hrec] at hty
  | ok t =>
    simp only [hrec, Except.ok.injEq] at hty
    subst hty
    have hmono := GetTypeInfo_succ pool m f.TypeName t hrec
    rw [← hn] at hmono
    refine ⟨fi, t, hfi, hmono, ?_, ?_⟩
    · rw [htyp]; split <;> rfl
    · rw [htyp]; split <;> rfl

/-- C3, witness: the field `inner` (index 2) of `pkg.HelloRequest` in `samplePool`. -/
theorem field_type_named_witness :
    ∃ (fi : FieldInfo) (t : TypeInfo),
      helloRequestInfo.Fields[2]? = some fi ∧ GetTypeInfo 2 samplePool "pkg.Inner" = .ok t ∧
      fi.Typ = .mk 11 (if (11 : Int) = FieldDescriptorProto_TYPE_ENUM then "enum" else t.Name)
        t.Fields t.Options ∧
      fi.Typ.Id = 11 :=
  field_type_named samplePool 2 "pkg.HelloRequest" helloRequestDesc helloRequestInfo rfl rfl 2
    { Name := "inner", Number := 3, Label := 3, Typ := 11, TypeName := "pkg.Inner",
      Options := some { raw := [16, 1] } } rfl (by decide)

/-! ## C4 -/

/-- The symbolic name of each of the 18 defined codes is `TYPE_` followed by a keyword. -/
theorem defined_code_name (c : Int) (h1 : 1 ≤ c) (h18 : c ≤ 18) :
    (FieldDescriptorProto_Type_String c).data =
      "TYPE_".data ++ (FieldDescriptorProto_Type_String c).data.drop 5 := by
  interval_cases c <;> rfl

/-- C4, counterexample: the scalar field of `pkg.Odd` carries code 123456, whose
symbolic name is the numeral `123456`; the call returns, the field's `Type.Name` is
`"6"`, and no keyword `kw` makes the symbolic name `TYPE_kw`. -/
theorem scalar_name_not_keyword :
    oddPool.getTypeDescriptor "pkg.Odd" = some oddDesc ∧
    oddDesc.Field[0]? = some { Name := "x", Number := 1, Label := 1, Typ := 123456,
                               TypeName := "", Options := none } ∧
    GetTypeInfo 1 oddPool "pkg.Odd" =
      .ok (.mk 0 "Odd" [{ Name := "x", Number := 1, Label := 1, Typ := .mk 123456 "6" [] none
                          Enum := { Name := "", Values := [] }, Options := none }] none) ∧
    ¬ ∃ kw : List Char, (FieldDescriptorProto_Type_String 123456).data = "TYPE_".data ++ kw := by
  refine ⟨rfl, rfl, rfl, ?_⟩
  rintro ⟨kw, h⟩
  have h2 : (FieldDescriptorProto_Type_String 123456).data = "123456".data := rfl
  rw [h2] at h
  simp at h

theorem scalarTypeInfo_inv (c : Int) (ty : TypeInfo) (h : scalarTypeInfo c = .ok ty) :
    ty = .mk c (String.mk (ToLower ((FieldDescriptorProto_Type_String c).data.drop 5))) []
      none := by
  unfold scalarTypeInfo at h
  simp only at h
  split at h
  · cases h
  · simp only [Except.ok.injEq] at h
    exact h.symm

/-- The lowercased keyword of each defined code does not begin with `type_`. -/
theorem defined_code_no_residue (c : Int) (h1 : 1 ≤ c) (h18 : c ≤ 18) :
    ¬ ("type_".data <+: ToLower ((FieldDescriptorProto_Type_String c).data.drop 5)) := by
  interval_cases c <;> decide

/-- C4, amended: in a `TypeInfo` returned for a resolved message, a field with an empty
type name has a `Type` with no fields and no options, `Id` equal to the field's
classification code, and `Name` equal to the lowercased symbolic name of that code
with its first five characters dropped.  For the 18 defined codes the symbolic name is
`TYPE_` followed by the keyword, so `Name` is the lowercased keyword and carries no
residual `type_`. -/
theorem field_type_scalar (pool : descPool) (n : Nat) (typeName : String)
    (d : DescriptorProto) (r : TypeInfo)
    (hd : pool.getTypeDescriptor typeName = some d)
    (hr : GetTypeInfo n pool typeName = .ok r)
    (i : Nat) (f : FieldDescriptorProto) (hf : d.Field[i]? = some f)
    (ht : f.TypeName = "") :
    ∃ fi : FieldInfo,
      r.Fields[i]? = some fi ∧ fi.Typ.Fields = [] ∧ fi.Typ.Options = none ∧
      fi.Typ.Id = f.Typ ∧
      fi.Typ.Name =
        String.mk (ToLower ((FieldDescriptorProto_Type_String f.Typ).data.drop 5)) ∧
      (1 ≤ f.Typ → f.Typ ≤ 18 →
        ∃ kw : List Char,
          (FieldDescriptorProto_Type_String f.Typ).data = "TYPE_".data ++ kw ∧
          fi.Typ.Name = String.mk (ToLower kw) ∧
          ¬ ("type_".data <+: fi.Typ.Name.data)) := by
  obtain ⟨m, fi, _, hfi, hb⟩ := GetTypeInfo_field pool n typeName d r hd hr i f hf
  obtain ⟨ty, hty, _, _, _, _, htyp, _⟩ := buildField_inv pool _ f fi hb
  rw [fieldTypeInfo_scalar _ f ht] at hty
  have hty' := scalarTypeInfo_inv f.Typ ty hty
  have hname : fi.Typ.Name =
      String.mk (ToLower ((FieldDescriptorProto_Type_String f.Typ).data.drop 5)) := by
    rw [htyp, hty']
    split
    · next he => rw [he]; rfl
    · rfl
  refine ⟨fi, hfi, ?_, ?_, ?_, hname, ?_⟩
  · rw [htyp, hty']; split <;> rfl
  · rw [htyp, hty']; split <;> rfl
  · rw [htyp, hty']; split <;> rfl
  · intro h1 h18
    refine ⟨(FieldDescriptorProto_Type_String f.Typ).data.drop 5,
      defined_code_name f.Typ h1 h18, hname, ?_⟩
    rw [hname]
    exact defined_code_no_residue f.Typ h1 h18

/-- C4, witness: the `int32` field `count` (index 0, code 5) of `pkg.HelloRequest`. -/
theorem field_type_scalar_witness :
    (helloRequestInfo.Fields[0]?).map (fun fi => (fi.Typ.Name, fi.Typ.Id)) =
      some ("int32", 5) ∧
    ∃ fi : FieldInfo,
      helloRequestInfo.Fields[0]? = some fi ∧ fi.Typ.Fields = [] ∧ fi.Typ.Options = none ∧
      fi.Typ.Id = 5 ∧
      fi.Typ.Name = String.mk (ToLower ((FieldDescriptorProto_Type_String 5).data.drop 5)) ∧
      ((1 : Int) ≤ 5 → (5 : Int) ≤ 18 →
        ∃ kw : List Char,
          (FieldDescriptorProto_Type_String 5).data = "TYPE_".data ++ kw ∧
          fi.Typ.Name = String.mk (ToLower kw) ∧
          ¬ ("type_".data <+: fi.Typ.Name.data)) :=
  ⟨rfl,
    field_type_scalar samplePool 2 "pkg.HelloRequest" helloRequestDesc helloRequestInfo rfl rfl
      0 { Name := "count", Number := 1, Label := 1, Typ := 5, TypeName := "", Options := none }
      rfl rfl⟩

/-! ## C5 -/

/-- C5: in a `TypeInfo` returned for a resolved message, a field classified enum with
type name `t` has `Type.Name = "enum"`; if the pool resolves `t` to an enum descriptor
`e`, `Enum.Name` is `e`'s name and `Enum.Values` lists `e`'s values one for one, in
order, with their names and numbers; if the pool cannot resolve `t`, `Enum` is the
empty default. -/
theorem field_enum (pool : descPool) (n : Nat) (typeName : String)
    (d : DescriptorProto) (r : TypeInfo)
    (hd : pool.getTypeDescriptor typeName = some d)
    (hr : GetTypeInfo n pool typeName = .ok r)
    (i : Nat) (f : FieldDescriptorProto) (hf : d.Field[i]? = some f)
    (he : f.Typ = FieldDescriptorProto_TYPE_ENUM) :
    ∃ fi : FieldInfo,
      r.Fields[i]? = some fi ∧ fi.Typ.Name = "enum" ∧
      (∀ e : EnumDescriptorProto, pool.getEnumDescriptor f.TypeName = some e →
        fi.Enum.Name = e.Name ∧ fi.Enum.Values.length = e.Value.length ∧
        ∀ (j : Nat) (v : EnumValueDescriptorProto), e.Value[j]? = some v →
          fi.Enum.Values[j]? = some { Name := v.Name, Number := v.Number }) ∧
      (pool.getEnumDescriptor f.TypeName = none → fi.Enum = { Name := "", Values := [] }) := by
  obtain ⟨m, fi, _, hfi, hb⟩ := GetTypeInfo_field pool n typeName d r hd hr i f hf
  obtain ⟨ty, _, _, _, _, _, htyp, henum⟩ := buildField_inv pool _ f fi hb
  refine ⟨fi, hfi, ?_, ?_, ?_⟩
  · rw [htyp, if_pos he]; rfl
  · intro e hres
    have hE : fi.Enum = { Name := e.Name
                          Values := e.Value.map
                            (fun ee => { Name := ee.Name, Number := ee.Number }) } := by
      rw [henum]
      unfold enumInfoOf
      rw [if_pos he, hres]
    rw [hE]
    refine ⟨rfl, by simp, ?_⟩
    intro j v hv
    simp [hv]
  · intro hres
    rw [henum]
    unfold enumInfoOf
    rw [if_pos he, hres]

/-- C5, witness: the field `kind` (index 1) of `pkg.HelloRequest`, whose enum
`pkg.Kind` the pool resolves. -/
theorem field_enum_witness :
    (helloRequestInfo.Fields[1]?).map (fun fi => fi.Enum) =
      some { Name := "Kind", Values := [{ Name := "A", Number := 0 },
                                        { Name := "B", Number := 1 }] } ∧
    ∃ fi : FieldInfo,
      helloRequestInfo.Fields[1]? = some fi ∧ fi.Typ.Name = "enum" ∧
      (∀ e : EnumDescriptorProto, samplePool.getEnumDescriptor "pkg.Kind" = some e →
        fi.Enum.Name = e.Name ∧ fi.Enum.Values.length = e.Value.length ∧
        ∀ (j : Nat) (v : EnumValueDescriptorProto), e.Value[j]? = some v →
          fi.Enum.Values[j]? = some { Name := v.Name, Number := v.Number }) ∧
      (samplePool.getEnumDescriptor "pkg.Kind" = none →
        fi.Enum = { Name := "", Values := [] }) :=
  ⟨rfl,
    field_enum samplePool 2 "pkg.HelloRequest" helloRequestDesc helloRequestInfo rfl rfl 1
      { Name := "kind", Number := 2, Label := 1, Typ := 14, TypeName := "pkg.Kind",
        Options := none } rfl rfl⟩

/-! ## C6 -/

/-- C6: in a `TypeInfo` returned for a resolved message, a field whose classification
is not enum has the empty default `Enum`, whatever the pool answers when the field's
type name is looked up as an enum. -/
theorem field_not_enum (pool : descPool) (n : Nat) (typeName : String)
    (d : DescriptorProto) (r : TypeInfo)
    (hd : pool.getTypeDescriptor typeName = some d)
    (hr : GetTypeInfo n pool typeName = .ok r)
    (i : Nat) (f : FieldDescriptorProto) (hf : d.Field[i]? = some f)
    (he : f.Typ ≠ FieldDescriptorProto_TYPE_ENUM) :
    ∃ fi : FieldInfo, r.Fields[i]? = some fi ∧ fi.Enum = { Name := "", Values := [] } := by
  obtain ⟨m, fi, _, hfi, hb⟩ := GetTypeInfo_field pool n typeName d r hd hr i f hf
  obtain ⟨ty, _, _, _, _, _, _, henum⟩ := buildField_inv pool _ f fi hb
  refine ⟨fi, hfi, ?_⟩
  rw [henum]
  unfold enumInfoOf
  rw [if_neg he]

/-- C6, witness: the field of `pkg.Mixed` is classified message, its type name
`pkg.Kind` resolves to an enum in `mixedPool`, and its `Enum` stays empty. -/
theorem field_not_enum_witness :
    mixedPool.getEnumDescriptor "pkg.Kind" = some kindDesc ∧
    ∃ fi : FieldInfo, mixedInfo.Fields[0]? = some fi ∧ fi.Enum = { Name := "", Values := [] } :=
  ⟨rfl,
    field_not_enum mixedPool 2 "pkg.Mixed" mixedDesc mixedInfo rfl rfl 0
      { Name := "k", Number := 1, Label := 1, Typ := 11, TypeName := "pkg.Kind",
        Options := none } rfl (by decide)⟩

/-! ## C7 -/

/-- C7, counterexample: the field `ghost` of `pkg.HelloRequest` refers to
`missing.Type`, which `samplePool` cannot resolve; its `Type.Id` is the field's code 11,
not the error tag 0.  The field `lost`, classified enum, refers to the unresolvable
`pkg.NoEnum`; its `Type.Name` is `"enum"`, not the raw type name. -/
theorem unresolved_reference_not_error_node :
    GetTypeInfo 2 samplePool "pkg.HelloRequest" = .ok helloRequestInfo ∧
    (helloRequestDesc.Field[3]?).map (fun f => (f.TypeName, f.Typ)) =
      some ("missing.Type", 11) ∧
    samplePool.getTypeDescriptor "missing.Type" = none ∧
    (helloRequestInfo.Fields[3]?).map (fun fi => fi.Typ.Id) = some 11 ∧
    (helloRequestInfo.Fields[3]?).map (fun fi => fi.Typ.Id) ≠ some 0 ∧
    (helloRequestDesc.Field[4]?).map (fun f => (f.TypeName, f.Typ)) =
      some ("pkg.NoEnum", 14) ∧
    samplePool.getTypeDescriptor "pkg.NoEnum" = none ∧
    (helloRequestInfo.Fields[4]?).map (fun fi => fi.Typ.Name) = some "enum" ∧
    (helloRequestInfo.Fields[4]?).map (fun fi => fi.Typ.Name) ≠ some "pkg.NoEnum" :=
  ⟨rfl, rfl, rfl, rfl, by decide, rfl, rfl, rfl, by decide⟩

/-- C7, amended: in a `TypeInfo` returned for a resolved message, every field, at any
nesting depth, whose non-empty type name the pool cannot resolve has a `Type` without
fields and options whose `Id` is the field's own classification code (the error tag 0
is overwritten) and whose `Name` is the raw type name, unless the field is classified
enum, in which case it is `"enum"`. -/
theorem unresolved_reference_node (pool : descPool) (n : Nat) (typeName : String)
    (d : DescriptorProto) (r : TypeInfo)
    (hd : pool.getTypeDescriptor typeName = some d)
    (hr : GetTypeInfo n pool typeName = .ok r)
    (f : FieldDescriptorProto) (fi : FieldInfo) (hx : Expands pool d r f fi)
    (hne : f.TypeName ≠ "") (hun : pool.getTypeDescriptor f.TypeName = none) :
    fi.Typ = .mk f.Typ (if f.Typ = FieldDescriptorProto_TYPE_ENUM then "enum" else f.TypeName)
      [] none := by
  have hbuilt : ∃ m, buildFields pool (GetTypeInfo m pool) d.Field = .ok r.Fields := by
    obtain ⟨m, fields, _, hb, hr'⟩ := resolved_call_inv pool n typeName d r hd hr
    exact ⟨m, by rw [hr']; exact hb⟩
  clear hr hd
  induction hx with
  | direct d t i f fi hf hfi =>
    obtain ⟨m, hb⟩ := hbuilt
    obtain ⟨fi2, hfi2, hbf⟩ := forall₂_getElem? (buildFields_forall₂ pool _ _ _ hb) i f hf
    rw [hfi] at hfi2
    cases hfi2
    obtain ⟨ty, hty, _, _, _, _, htyp, _⟩ := buildField_inv pool _ f fi hbf
    rw [fieldTypeInfo_named _ f hne] at hty
    cases m with
    | zero => simp [GetTypeInfo] at hty
    | succ k =>
      rw [unresolved_call pool f.TypeName k hun] at hty
      simp only [Except.ok.injEq] at hty
      rw [htyp, ← hty]
      split <;> rfl
  | nested d t i g gi d2 f fi hg hgi hgne hgd _ ih =>
    apply ih hne hun
    obtain ⟨m, hb⟩ := hbuilt
    obtain ⟨gi2, hgi2, hbg⟩ := forall₂_getElem? (buildFields_forall₂ pool _ _ _ hb) i g hg
    rw [hgi] at hgi2
    cases hgi2
    obtain ⟨ty, hty, _, _, _, _, htyp, _⟩ := buildField_inv pool _ g gi hbg
    rw [fieldTypeInfo_named _ g hgne] at hty
    cases hrec : GetTypeInfo m pool g.TypeName with
    | error e => simp [hrec] at hty
    | ok t0 =>
      simp only [hrec, Except.ok.injEq] at hty
      obtain ⟨m2, fields, _, hb2, ht0⟩ := resolved_call_inv pool m g.TypeName d2 t0 hgd hrec
      refine ⟨m2, ?_⟩
      rw [hb2, htyp, ← hty, ht0]
      split <;> rfl

/-- C7, witness: the field `ghost`, one level down in the tree of `pkg.Outer`. -/
theorem unresolved_reference_node_witness :
    GetTypeInfo 3 samplePool "pkg.Outer" = .ok outerInfo ∧
    samplePool.getTypeDescriptor "missing.Type" = none ∧
    (.mk 11 "missing.Type" [] none : TypeInfo) =
      .mk 11 (if (11 : Int) = FieldDescriptorProto_TYPE_ENUM then "enum" else "missing.Type")
        [] none :=
  ⟨rfl, rfl,
    unresolved_reference_node samplePool 3 "pkg.Outer" outerDesc outerInfo rfl rfl
      { Name := "ghost", Number := 4, Label := 1, Typ := 11, TypeName := "missing.Type",
        Options := none }
      { Name := "ghost", Number := 4, Label := 1, Typ := .mk 11 "missing.Type" [] none
        Enum := { Name := "", Values := [] }, Options := none }
      (Expands.nested outerDesc outerInfo 0
        { Name := "req", Number := 1, Label := 1, Typ := 11, TypeName := "pkg.HelloRequest",
          Options := none }
        { Name := "req", Number := 1, Label := 1
          Typ := .mk 11 "HelloRequest" helloRequestInfo.Fields none
          Enum := { Name := "", Values := [] }, Options := none }
        helloRequestDesc _ _ rfl rfl (by decide) rfl
        (Expands.direct helloRequestDesc _ 3 _ _ rfl rfl))
      (by decide) rfl⟩

/-! ### The loops of `GetInfo` -/

theorem buildMethods_forall₂ (n : Nat) (pool : descPool) :
    ∀ (ms : List MethodDescriptorProto) (res : List Method),
      buildMethods n pool ms = .ok res →
      List.Forall₂
        (fun m mi => mi.Name = m.Name ∧ GetTypeInfo n pool m.InputType = .ok mi.In ∧
          GetTypeInfo n pool m.OutputType = .ok mi.Out ∧ mi.InStream = m.ClientStreaming ∧
          mi.OutStream = m.ServerStreaming) ms res := by
  intro ms
  induction ms with
  | nil =>
    intro res h
    simp only [buildMethods, Except.ok.injEq] at h
    subst h
    exact List.Forall₂.nil
  | cons m rest ih =>
    intro res h
    simp only [buildMethods] at h
    cases hin : GetTypeInfo n pool m.InputType with
    | error e => simp [hin] at h
    | ok tin =>
      cases hout : GetTypeInfo n pool m.OutputType with
      | error e => simp [hin, hout] at h
      | ok tout =>
        cases hrest : buildMethods n pool rest with
        | error e => simp [hin, hout, hrest] at h
        | ok mis =>
          simp only [hin, hout, hrest, Except.ok.injEq] at h
          subst h
          exact List.Forall₂.cons ⟨rfl, hin, hout, rfl, rfl⟩ (ih mis hrest)

theorem buildServices_forall₂ (n : Nat) (pool : descPool) :
    ∀ (svcs : List (String × ServiceDescriptorProto)) (res : List Service),
      buildServices n pool svcs = .ok res →
      List.Forall₂
        (fun e s => e.2.Name = some s.Name ∧ s.PackageName = packageNameOf e.1 ∧
          buildMethods n pool e.2.Method = .ok s.Methods)
        (svcs.filter (fun e => decide (packageNameOf e.1 ≠ "grpc.reflection.v1alpha"))) res := by
  intro svcs
  induction svcs with
  | nil =>
    intro res h
    simp only [buildServices, Except.ok.injEq] at h
    subst h
    exact List.Forall₂.nil
  | cons e rest ih =>
    intro res h
    obtain ⟨sname, descr⟩ := e
    simp only [buildServices] at h
    by_cases hp : packageNameOf sname = "grpc.reflection.v1alpha"
    · rw [if_pos hp] at h
      rw [List.filter_cons_of_neg (by simpa using hp)]
      exact ih res h
    · rw [if_neg hp] at h
      rw [List.filter_cons_of_pos (by simpa using hp)]
      cases hname : descr.Name with
      | none => simp [hname] at h
      | some name =>
        cases hm : buildMethods n pool descr.Method with
        | error e => simp [hname, hm] at h
        | ok methods =>
          cases hrest : buildServices n pool rest with
          | error e => simp [hname, hm, hrest] at h
          | ok res2 =>
            simp only [hname, hm, hrest, Except.ok.injEq] at h
            subst h
            exact List.Forall₂.cons ⟨hname, rfl, hm⟩ (ih res2 hrest)

theorem GetInfo_inv (n : Nat) (pool : descPool) (res : List Service)
    (svcs : List (String × ServiceDescriptorProto))
    (hres : GetInfo n pool = .ok (.ok res))
    (hs : pool.getServicesDescriptors = .ok svcs) :
    buildServices n pool svcs = .ok res := by
  unfold GetInfo at hres
  cases hc : pool.connect with
  | some err => simp [hc] at hres
  | none =>
    simp only [hc, hs] at hres
    cases hb : buildServices n pool svcs with
    | error e => simp [hb] at hres
    | ok res2 =>
      simp only [hb, Except.ok.injEq] at hres
      rw [hres]

/-! ### The package name derived from a key -/

theorem Split_headD (sep : Char) :
    ∀ s : List Char, (Split sep s).headD [] = s.takeWhile (fun c => decide (c ≠ sep)) := by
  intro s
  induction s with
  | nil => rfl
  | cons c cs ih =>
    by_cases hc : c = sep
    · simp [Split, hc]
    · have hstep : (Split sep (c :: cs)).headD [] = c :: (Split sep cs).headD [] := by
        simp only [Split, if_neg hc]
        cases Split sep cs <;> rfl
      rw [hstep, ih]
      simp [hc]

theorem packageNameOf_data (sname : String) :
    (packageNameOf sname).data = sname.data.takeWhile (fun c => decide (c ≠ '/')) := by
  unfold packageNameOf
  rw [Split_headD]

/-- The derived package name is the part of the key before its first `/`, the whole
key when it has none. -/
theorem packageNameOf_spec (sname : String) :
    '/' ∉ (packageNameOf sname).data ∧
    ∃ rest : List Char, sname.data = (packageNameOf sname).data ++ rest ∧
      (rest = [] ∨ ∃ tail, rest = '/' :: tail) := by
  rw [packageNameOf_data]
  refine ⟨?_, sname.data.dropWhile (fun c => decide (c ≠ '/')), ?_, ?_⟩
  · intro hmem
    have := List.mem_takeWhile_imp hmem
    simp at this
  · exact (List.takeWhile_append_dropWhile _ _).symm
  · cases hd : sname.data.dropWhile (fun c => decide (c ≠ '/')) with
    | nil => exact Or.inl rfl
    | cons c tail =>
      right
      have hne : sname.data.dropWhile (fun c => decide (c ≠ '/')) ≠ [] := by
        rw [hd]; exact List.cons_ne_nil _ _
      have := List.head_dropWhile_not (fun c => decide (c ≠ '/')) sname.data hne
      simp only [hd, List.head_cons] at this
      have hc : c = '/' := by simpa using this
      exact ⟨tail, by rw [hc]⟩

theorem packageNameOf_no_sep (sname : String) (h : '/' ∉ sname.data) :
    packageNameOf sname = sname := by
  have hd : (packageNameOf sname).data = sname.data := by
    rw [packageNameOf_data, List.takeWhile_eq_self_iff]
    intro c hc
    have : c ≠ '/' := fun he => h (he ▸ hc)
    simpa using this
  cases hp : packageNameOf sname with
  | mk l =>
    rw [hp] at hd
    simp only at hd
    rw [hd]

/-! ## C11 -/

/-- C11, counterexample: the only listed service is keyed
`grpc.reflection.v1alpha.ServerReflection`; the key has no `/`, its derived package name
is the whole key, and `GetInfo` returns one `Service`, not an empty list. -/
theorem dotted_reflection_key_kept :
    dottedReflectionPool.connect = none ∧
    dottedReflectionPool.getServicesDescriptors =
      .ok [("grpc.reflection.v1alpha.ServerReflection", emptyServiceDesc)] ∧
    packageNameOf "grpc.reflection.v1alpha.ServerReflection" =
      "grpc.reflection.v1alpha.ServerReflection" ∧
    ∀ n, GetInfo n dottedReflectionPool =
      .ok (.ok [{ Name := "ServerReflection"
                  PackageName := "grpc.reflection.v1alpha.ServerReflection"
                  Methods := [] }]) :=
  ⟨rfl, rfl, by decide, fun n => by cases n <;> rfl⟩

/-- C11, amended: when the connection succeeds and the service map has the single
entry whose key has `grpc.reflection.v1alpha` before its first `/` (as in
`grpc.reflection.v1alpha/ServerReflection`), `GetInfo` returns the empty list. -/
theorem reflection_service_filtered (n : Nat) (pool : descPool) (key : String)
    (descr : ServiceDescriptorProto)
    (hc : pool.connect = none)
    (hs : pool.getServicesDescriptors = .ok [(key, descr)])
    (hk : packageNameOf key = "grpc.reflection.v1alpha") :
    GetInfo n pool = .ok (.ok []) := by
  simp [GetInfo, hc, hs, buildServices, hk]

/-- C11, witness: the key `grpc.reflection.v1alpha/ServerReflection`. -/
theorem reflection_service_filtered_witness :
    packageNameOf "grpc.reflection.v1alpha/ServerReflection" = "grpc.reflection.v1alpha" ∧
    GetInfo 3 slashReflectionPool = .ok (.ok []) :=
  ⟨by decide,
    reflection_service_filtered 3 slashReflectionPool
      "grpc.reflection.v1alpha/ServerReflection" emptyServiceDesc rfl rfl (by decide)⟩

/-! ## C12 -/

/-- C12, counterexample: the service keyed `pkg.Greeter` gets the package name
`pkg.Greeter`, not `pkg`. -/
theorem dotted_key_package :
    dottedGreeterPool.getServicesDescriptors = .ok [("pkg.Greeter", sayHelloDesc)] ∧
    GetInfo 3 dottedGreeterPool =
      .ok (.ok [{ Name := "Greeter", PackageName := "pkg.Greeter",
                  Methods := [sayHelloMethod] }]) ∧
    packageNameOf "pkg.Greeter" ≠ "pkg" :=
  ⟨rfl, rfl, by decide⟩

/-- C12, amended: in the list `GetInfo` returns, the `Service` of the `j`-th entry that
passes the filter has as `Name` the name of the entry's descriptor and as `PackageName`
the part of the entry's key before its first `/` (the whole key when it has none). -/
theorem kept_service_names (n : Nat) (pool : descPool) (res : List Service)
    (svcs : List (String × ServiceDescriptorProto))
    (hres : GetInfo n pool = .ok (.ok res))
    (hs : pool.getServicesDescriptors = .ok svcs)
    (j : Nat) (sname : String) (descr : ServiceDescriptorProto)
    (hj : (svcs.filter
      (fun e => decide (packageNameOf e.1 ≠ "grpc.reflection.v1alpha")))[j]? =
        some (sname, descr)) :
    ∃ s : Service, res[j]? = some s ∧ descr.Name = some s.Name ∧
      s.PackageName = packageNameOf sname ∧ '/' ∉ s.PackageName.data ∧
      ∃ rest : List Char, sname.data = s.PackageName.data ++ rest ∧
        (rest = [] ∨ ∃ tail, rest = '/' :: tail) := by
  have hb := GetInfo_inv n pool res svcs hres hs
  obtain ⟨s, hsj, hname, hpk, _⟩ :=
    forall₂_getElem? (buildServices_forall₂ n pool svcs res hb) j (sname, descr) hj
  refine ⟨s, hsj, hname, hpk, ?_⟩
  rw [hpk]
  exact packageNameOf_spec sname

/-- C12, witness: one service keyed `pkg/Greeter` with the unary method `SayHello`. -/
theorem kept_service_names_witness :
    GetInfo 3 slashGreeterPool =
      .ok (.ok [{ Name := "Greeter", PackageName := "pkg", Methods := [sayHelloMethod] }]) ∧
    (sayHelloMethod.Name, sayHelloMethod.InStream, sayHelloMethod.OutStream) =
      ("SayHello", false, false) ∧
    ∃ s : Service,
      [({ Name := "Greeter", PackageName := "pkg", Methods := [sayHelloMethod] } : Service)][0]?
        = some s ∧
      sayHelloDesc.Name = some s.Name ∧
      s.PackageName = packageNameOf "pkg/Greeter" ∧ '/' ∉ s.PackageName.data ∧
      ∃ rest : List Char, "pkg/Greeter".data = s.PackageName.data ++ rest ∧
        (rest = [] ∨ ∃ tail, rest = '/' :: tail) :=
  ⟨rfl, rfl,
    kept_service_names 3 slashGreeterPool _ [("pkg/Greeter", sayHelloDesc)] rfl rfl 0
      "pkg/Greeter" sayHelloDesc (by decide)⟩

/-! ## C13 -/

/-- C13, counterexample: the key `grpc.reflection.v1alpha` has no `/`, its derived
package name is the whole key, and its service is filtered out. -/
theorem bare_reflection_key_filtered :
    '/' ∉ "grpc.reflection.v1alpha".data ∧
    packageNameOf "grpc.reflection.v1alpha" = "grpc.reflection.v1alpha" ∧
    bareReflectionPool.getServicesDescriptors =
      .ok [("grpc.reflection.v1alpha", emptyServiceDesc)] ∧
    ∀ n, GetInfo n bareReflectionPool = .ok (.ok []) :=
  ⟨by decide, by decide, rfl, fun n => by cases n <;> rfl⟩

/-- C13, amended: for a key without `/` (the empty key included) the derived package
name is the whole key, and unless the key is exactly `grpc.reflection.v1alpha` the
entry is not filtered: every list `GetInfo` returns holds a `Service` with that package
name and the name of the entry's descriptor. -/
theorem single_segment_key (key : String) (hk : '/' ∉ key.data) :
    packageNameOf key = key ∧
    ∀ (n : Nat) (pool : descPool) (res : List Service)
      (svcs : List (String × ServiceDescriptorProto)) (descr : ServiceDescriptorProto),
      GetInfo n pool = .ok (.ok res) → pool.getServicesDescriptors = .ok svcs →
      (key, descr) ∈ svcs → key ≠ "grpc.reflection.v1alpha" →
      ∃ s ∈ res, s.PackageName = key ∧ descr.Name = some s.Name := by
  have hpk := packageNameOf_no_sep key hk
  refine ⟨hpk, ?_⟩
  intro n pool res svcs descr hres hs hmem hne
  have hb := GetInfo_inv n pool res svcs hres hs
  have hkept : (key, descr) ∈
      svcs.filter (fun e => decide (packageNameOf e.1 ≠ "grpc.reflection.v1alpha")) := by
    rw [List.mem_filter]
    refine ⟨hmem, ?_⟩
    simp only [hpk]
    simpa using hne
  obtain ⟨i, hi, hget⟩ := List.getElem_of_mem hkept
  have hsome : (svcs.filter
      (fun e => decide (packageNameOf e.1 ≠ "grpc.reflection.v1alpha")))[i]? =
        some (key, descr) := by
    rw [List.getElem?_eq_getElem hi, hget]
  obtain ⟨s, hsi, hname, hp, _⟩ :=
    forall₂_getElem? (buildServices_forall₂ n pool svcs res hb) i (key, descr) hsome
  exact ⟨s, List.getElem?_mem hsi, by rw [hp, hpk], hname⟩

/-- C13, witness: the single-segment key `Greeter`. -/
theorem single_segment_key_witness :
    '/' ∉ "Greeter".data ∧
    GetInfo 3 bareGreeterPool =
      .ok (.ok [{ Name := "Greeter", PackageName := "Greeter", Methods := [sayHelloMethod] }]) ∧
    ∃ s ∈ [({ Name := "Greeter", PackageName := "Greeter",
              Methods := [sayHelloMethod] } : Service)],
      s.PackageName = "Greeter" ∧ sayHelloDesc.Name = some s.Name :=
  ⟨by decide, rfl,
    (single_segment_key "Greeter" (by decide)).2 3 bareGreeterPool _
      [("Greeter", sayHelloDesc)] sayHelloDesc rfl rfl (by simp) (by decide)⟩

/-! ### Faults of `GetTypeInfo` -/

theorem scalarTypeInfo_error (c : Int) (e : Fault) (h : scalarTypeInfo c = .error e) :
    e = .sliceBounds ∧ (FieldDescriptorProto_Type_String c).data.length < 5 := by
  unfold scalarTypeInfo at h
  simp only at h
  split at h
  · next hlt =>
    simp only [Except.error.injEq] at h
    exact ⟨h.symm, hlt⟩
  · cases h

theorem fieldTypeInfo_error (recur : String → Except Fault TypeInfo)
    (f : FieldDescriptorProto) (e : Fault) (h : fieldTypeInfo recur f = .error e) :
    (f.TypeName ≠ "" ∧ recur f.TypeName = .error e) ∨
      (f.TypeName = "" ∧ scalarTypeInfo f.Typ = .error e) := by
  by_cases hn : f.TypeName = ""
  · rw [fieldTypeInfo_scalar _ f hn] at h
    exact Or.inr ⟨hn, h⟩
  · rw [fieldTypeInfo_named _ f hn] at h
    cases hr : recur f.TypeName with
    | ok t => simp [hr] at h
    | error e2 =>
      simp only [hr, Except.error.injEq] at h
      exact Or.inl ⟨hn, by rw [h]⟩

theorem buildField_error (pool : descPool) (recur : String → Except Fault TypeInfo)
    (f : FieldDescriptorProto) (e : Fault) (h : buildField pool recur f = .error e) :
    fieldTypeInfo recur f = .error e := by
  unfold buildField at h
  cases ht : fieldTypeInfo recur f with
  | ok t => simp [ht] at h
  | error e2 =>
    simp only [ht, Except.error.injEq] at h
    rw [h]

theorem buildFields_error (pool : descPool) (recur : String → Except Fault TypeInfo) :
    ∀ (fs : List FieldDescriptorProto) (e : Fault), buildFields pool recur fs = .error e →
      ∃ f ∈ fs, buildField pool recur f = .error e := by
  intro fs
  induction fs with
  | nil => intro e h; simp [buildFields] at h
  | cons f rest ih =>
    intro e h
    simp only [buildFields] at h
    cases hf : buildField pool recur f with
    | error e2 =>
      simp only [hf, Except.error.injEq] at h
      exact ⟨f, List.mem_cons_self _ _, by rw [hf, h]⟩
    | ok fi =>
      cases hr : buildFields pool recur rest with
      | ok fis => simp [hf, hr] at h
      | error e2 =>
        simp only [hf, hr, Except.error.injEq] at h
        obtain ⟨g, hg, hge⟩ := ih e2 hr
        exact ⟨g, List.mem_cons_of_mem _ hg, by rw [hge, h]⟩

theorem buildFields_ok_mem (pool : descPool) (recur : String → Except Fault TypeInfo)
    (fs : List FieldDescriptorProto) (fis : List FieldInfo)
    (h : buildFields pool recur fs = .ok fis) (f : FieldDescriptorProto) (hf : f ∈ fs) :
    ∃ fi, buildField pool recur f = .ok fi := by
  obtain ⟨i, hi, hget⟩ := List.getElem_of_mem hf
  have hsome : fs[i]? = some f := by rw [List.getElem?_eq_getElem hi, hget]
  obtain ⟨fi, _, hb⟩ := forall₂_getElem? (buildFields_forall₂ pool recur fs fis h) i f hsome
  exact ⟨fi, hb⟩

theorem GetTypeInfo_error_inv (pool : descPool) (n : Nat) (typeName : String) (e : Fault)
    (h : GetTypeInfo (n + 1) pool typeName = .error e) :
    ∃ d, pool.getTypeDescriptor typeName = some d ∧
      ∃ f ∈ d.Field, fieldTypeInfo (GetTypeInfo n pool) f = .error e := by
  simp only [GetTypeInfo] at h
  cases hd : pool.getTypeDescriptor typeName with
  | none => simp [hd] at h
  | some d =>
    simp only [hd] at h
    cases hb : buildFields pool (GetTypeInfo n pool) d.Field with
    | ok fields => simp [hb] at h
    | error e2 =>
      simp only [hb, Except.error.injEq] at h
      obtain ⟨f, hf, hfe⟩ := buildFields_error pool _ d.Field e2 hb
      exact ⟨d, rfl, f, hf, by rw [← h]; exact buildField_error pool _ f e2 hfe⟩

/-- The function `GetTypeInfo` fails only by unbounded recursion or by the slice. -/
theorem GetTypeInfo_fault_kinds (pool : descPool) :
    ∀ (n : Nat) (typeName : String) (e : Fault),
      GetTypeInfo n pool typeName = .error e → e = .fuel ∨ e = .sliceBounds := by
  intro n
  induction n with
  | zero =>
    intro typeName e h
    simp only [GetTypeInfo, Except.error.injEq] at h
    exact Or.inl h.symm
  | succ m ih =>
    intro typeName e h
    obtain ⟨d, _, f, _, hfe⟩ := GetTypeInfo_error_inv pool m typeName e h
    rcases fieldTypeInfo_error _ f e hfe with ⟨_, hrec⟩ | ⟨_, hsc⟩
    · exact ih f.TypeName e hrec
    · exact Or.inr (scalarTypeInfo_error f.Typ e hsc).1

/-- With every slice in range, `GetTypeInfo` fails only by unbounded recursion. -/
theorem GetTypeInfo_fault_fuel (pool : descPool) (hs : SliceSafe pool) :
    ∀ (n : Nat) (typeName : String) (e : Fault),
      GetTypeInfo n pool typeName = .error e → e = .fuel := by
  intro n
  induction n with
  | zero =>
    intro typeName e h
    simp only [GetTypeInfo, Except.error.injEq] at h
    exact h.symm
  | succ m ih =>
    intro typeName e h
    obtain ⟨d, hd, f, hf, hfe⟩ := GetTypeInfo_error_inv pool m typeName e h
    rcases fieldTypeInfo_error _ f e hfe with ⟨_, hrec⟩ | ⟨hn, hsc⟩
    · exact ih f.TypeName e hrec
    · have hlt := (scalarTypeInfo_error f.Typ e hsc).2
      have hge := hs typeName d hd f hf hn
      omega

/-- A type on a reference cycle yields no `TypeInfo` at any call depth. -/
theorem cycle_not_ok (pool : descPool) :
    ∀ (n : Nat) (M : String), Relation.TransGen (Refers pool) M M →
      ∀ r, GetTypeInfo n pool M ≠ .ok r := by
  intro n
  induction n with
  | zero => intro M _ r h; simp [GetTypeInfo] at h
  | succ m ih =>
    intro M hcyc r h
    obtain ⟨b, ⟨d, f, hd, hf, hne, hfb⟩, hbM⟩ := Relation.TransGen.head'_iff.mp hcyc
    have hMb : Refers pool M b := ⟨d, f, hd, hf, hne, hfb⟩
    have hb : Relation.TransGen (Refers pool) b b := Relation.TransGen.tail' hbM hMb
    obtain ⟨m2, fields, hm, hbuild, _⟩ := resolved_call_inv pool (m + 1) M d r hd h
    have hm2 : m2 = m := by omega
    subst hm2
    obtain ⟨fi, hfi⟩ := buildFields_ok_mem pool _ d.Field fields hbuild f hf
    obtain ⟨ty, hty, _⟩ := buildField_inv pool _ f fi hfi
    rw [fieldTypeInfo_named _ f hne, hfb] at hty
    cases hrec : GetTypeInfo m2 pool b with
    | error e => simp [hrec] at hty
    | ok t => exact ih b hb t hrec

/-! ### Nesting depth -/

theorem depth_mk (i : Int) (nm : String) (fs : List FieldInfo) (o : Option MessageOptions) :
    (TypeInfo.mk i nm fs o).depth = fieldsDepth fs := by
  simp [TypeInfo.depth]

theorem depth_eq (t : TypeInfo) : t.depth = fieldsDepth t.Fields := by
  cases t with
  | mk i nm fs o => rw [depth_mk]; rfl

theorem fieldDepth_eq (fi : FieldInfo) : fieldDepth fi = fi.Typ.depth := by
  cases fi with
  | mk a b c t e o => simp [fieldDepth]

theorem fieldsDepth_cons (fi : FieldInfo) (rest : List FieldInfo) :
    fieldsDepth (fi :: rest) = max (fi.Typ.depth + 1) (fieldsDepth rest) := by
  rw [← fieldDepth_eq]
  simp [fieldsDepth]

theorem fieldsDepth_le (k : Nat) :
    ∀ fs : List FieldInfo, (∀ fi ∈ fs, fi.Typ.depth ≤ k) → fieldsDepth fs ≤ k + 1 := by
  intro fs
  induction fs with
  | nil => intro _; simp [fieldsDepth]
  | cons fi rest ih =>
    intro h
    rw [fieldsDepth_cons]
    have h1 := h fi (List.mem_cons_self _ _)
    have h2 := ih (fun g hg => h g (List.mem_cons_of_mem _ hg))
    omega

theorem depth_setId (t : TypeInfo) (i : Int) : (t.setId i).depth = t.depth := by
  rw [depth_eq, depth_eq]; rfl

theorem depth_setName (t : TypeInfo) (s : String) : (t.setName s).depth = t.depth := by
  rw [depth_eq, depth_eq]; rfl

/-! ### Leaves of a result tree -/

/-- In a returned tree, a field whose `Type` has no fields is a scalar, a reference the
pool cannot resolve, or a reference to a message that declares no fields. -/
theorem leaf_kinds (pool : descPool) (n : Nat) (typeName : String)
    (d : DescriptorProto) (r : TypeInfo)
    (hd : pool.getTypeDescriptor typeName = some d)
    (hr : GetTypeInfo n pool typeName = .ok r)
    (f : FieldDescriptorProto) (fi : FieldInfo) (hx : Expands pool d r f fi)
    (hleaf : fi.Typ.Fields = []) :
    f.TypeName = "" ∨ pool.getTypeDescriptor f.TypeName = none ∨
      ∃ d2, pool.getTypeDescriptor f.TypeName = some d2 ∧ d2.Field = [] := by
  have hbuilt : ∃ m, buildFields pool (GetTypeInfo m pool) d.Field = .ok r.Fields := by
    obtain ⟨m, fields, _, hb, hr2⟩ := resolved_call_inv pool n typeName d r hd hr
    exact ⟨m, by rw [hr2]; exact hb⟩
  clear hr hd
  induction hx with
  | direct d t i f fi hf hfi =>
    obtain ⟨m, hb⟩ := hbuilt
    obtain ⟨fi2, hfi2, hbf⟩ := forall₂_getElem? (buildFields_forall₂ pool _ _ _ hb) i f hf
    rw [hfi] at hfi2
    cases hfi2
    by_cases hne : f.TypeName = ""
    · exact Or.inl hne
    · right
      cases hd2 : pool.getTypeDescriptor f.TypeName with
      | none => exact Or.inl rfl
      | some d2 =>
        right
        refine ⟨d2, rfl, ?_⟩
        obtain ⟨ty, hty, _, _, _, _, htyp, _⟩ := buildField_inv pool _ f fi hbf
        rw [fieldTypeInfo_named _ f hne] at hty
        cases hrec : GetTypeInfo m pool f.TypeName with
        | error e => simp [hrec] at hty
        | ok t0 =>
          simp only [hrec, Except.ok.injEq] at hty
          obtain ⟨m2, fields, _, hb2, ht0⟩ :=
            resolved_call_inv pool m f.TypeName d2 t0 hd2 hrec
          have hfields : fi.Typ.Fields = fields := by
            rw [htyp, ← hty, ht0]
            split <;> rfl
          rw [hleaf] at hfields
          have hlen := (buildFields_forall₂ pool _ _ _ hb2).length_eq
          rw [← hfields] at hlen
          exact List.length_eq_zero.mp hlen
  | nested d t i g gi d2 f fi hg hgi hgne hgd _ ih =>
    apply ih hleaf
    obtain ⟨m, hb⟩ := hbuilt
    obtain ⟨gi2, hgi2, hbg⟩ := forall₂_getElem? (buildFields_forall₂ pool _ _ _ hb) i g hg
    rw [hgi] at hgi2
    cases hgi2
    obtain ⟨ty, hty, _, _, _, _, htyp, _⟩ := buildField_inv pool _ g gi hbg
    rw [fieldTypeInfo_named _ g hgne] at hty
    cases hrec : GetTypeInfo m pool g.TypeName with
    | error e => simp [hrec] at hty
    | ok t0 =>
      simp only [hrec, Except.ok.injEq] at hty
      obtain ⟨m2, fields, _, hb2, ht0⟩ := resolved_call_inv pool m g.TypeName d2 t0 hgd hrec
      refine ⟨m2, ?_⟩
      rw [hb2, htyp, ← hty, ht0]
      split <;> rfl

/-! ### Termination on bounded reference chains -/

/-- The resolved branch of `GetTypeInfo` (lines 108-147). -/
theorem resolved_call (pool : descPool) (n : Nat) (typeName : String) (d : DescriptorProto)
    (fields : List FieldInfo)
    (hd : pool.getTypeDescriptor typeName = some d)
    (hb : buildFields pool (GetTypeInfo n pool) d.Field = .ok fields) :
    GetTypeInfo (n + 1) pool typeName = .ok (.mk 0 d.Name fields d.Options) := by
  rw [GetTypeInfo]
  simp only [hd, hb]

theorem scalarTypeInfo_ok (c : Int)
    (h : 5 ≤ (FieldDescriptorProto_Type_String c).data.length) :
    scalarTypeInfo c =
      .ok (.mk c (String.mk (ToLower ((FieldDescriptorProto_Type_String c).data.drop 5))) []
        none) := by
  unfold scalarTypeInfo
  simp only
  rw [if_neg (by omega)]

theorem buildField_depth (pool : descPool) (recur : String → Except Fault TypeInfo)
    (f : FieldDescriptorProto) (fi : FieldInfo) (k : Nat)
    (hrec : f.TypeName ≠ "" → ∀ t, recur f.TypeName = .ok t → t.depth ≤ k)
    (h : buildField pool recur f = .ok fi) : fi.Typ.depth ≤ k := by
  obtain ⟨ty, hty, _, _, _, _, htyp, _⟩ := buildField_inv pool _ f fi h
  have hty_depth : ty.depth ≤ k := by
    by_cases hn : f.TypeName = ""
    · rw [fieldTypeInfo_scalar _ f hn] at hty
      rw [scalarTypeInfo_inv f.Typ ty hty, depth_mk]
      simp [fieldsDepth]
    · rw [fieldTypeInfo_named _ f hn] at hty
      cases hr : recur f.TypeName with
      | error e => simp [hr] at hty
      | ok t0 =>
        simp only [hr, Except.ok.injEq] at hty
        rw [← hty, depth_setId]
        exact hrec hn t0 hr
  rw [htyp]
  split
  · rw [depth_setName]; exact hty_depth
  · exact hty_depth

/-- With reference chains of at most `L` names and every slice on the way in range,
call depth `L + 1` suffices and the result nests at most `L` field lists. -/
theorem bounded_chains_return (pool : descPool) :
    ∀ (L : Nat) (typeName : String),
      (∀ c, Chain pool typeName c → c.length ≤ L) →
      (∀ (c : List String) (name : String) (d : DescriptorProto),
        Chain pool typeName c → name ∈ c → pool.getTypeDescriptor name = some d →
        ∀ f ∈ d.Field, f.TypeName = "" →
          5 ≤ (FieldDescriptorProto_Type_String f.Typ).data.length) →
      ∃ r, GetTypeInfo (L + 1) pool typeName = .ok r ∧ r.depth ≤ L := by
  intro L
  induction L with
  | zero =>
    intro typeName hL _
    cases hd : pool.getTypeDescriptor typeName with
    | none =>
      exact ⟨_, unresolved_call pool typeName 0 hd, by rw [depth_mk]; simp [fieldsDepth]⟩
    | some d =>
      have := hL [typeName] (Chain.single typeName d hd)
      simp at this
  | succ k ih =>
    intro typeName hL hS
    cases hd : pool.getTypeDescriptor typeName with
    | none =>
      exact ⟨_, unresolved_call pool typeName (k + 1) hd, by rw [depth_mk]; simp [fieldsDepth]⟩
    | some d =>
      have hsub : ∀ f ∈ d.Field, f.TypeName ≠ "" →
          ∃ t, GetTypeInfo (k + 1) pool f.TypeName = .ok t ∧ t.depth ≤ k := by
        intro f hf hne
        apply ih f.TypeName
        · intro c hc
          have := hL (typeName :: c) (Chain.cons typeName d f c hd hf hne hc)
          simp only [List.length_cons] at this
          omega
        · intro c name d2 hc hmem hd2 g hg hgn
          exact hS (typeName :: c) name d2 (Chain.cons typeName d f c hd hf hne hc)
            (List.mem_cons_of_mem _ hmem) hd2 g hg hgn
      have htypes : ∀ f ∈ d.Field, ∃ t, fieldTypeInfo (GetTypeInfo (k + 1) pool) f = .ok t := by
        intro f hf
        by_cases hn : f.TypeName = ""
        · rw [fieldTypeInfo_scalar _ f hn]
          exact ⟨_, scalarTypeInfo_ok f.Typ
            (hS [typeName] typeName d (Chain.single typeName d hd) (by simp) hd f hf hn)⟩
        · obtain ⟨t, ht, _⟩ := hsub f hf hn
          rw [fieldTypeInfo_named _ f hn, ht]
          exact ⟨_, rfl⟩
      obtain ⟨fis, hfis⟩ := buildFields_ok_of_types pool _ d.Field htypes
      refine ⟨.mk 0 d.Name fis d.Options, resolved_call pool (k + 1) typeName d fis hd hfis, ?_⟩
      rw [depth_mk]
      apply fieldsDepth_le
      intro fi hfi
      obtain ⟨i, hi, hget⟩ := List.getElem_of_mem hfi
      have hall := buildFields_forall₂ pool _ _ _ hfis
      have hi2 : i < d.Field.length := by rw [hall.length_eq]; exact hi
      obtain ⟨fi2, hfi2, hb⟩ := forall₂_getElem? hall i _ (List.getElem?_eq_getElem hi2)
      rw [List.getElem?_eq_getElem hi, hget] at hfi2
      cases hfi2
      apply buildField_depth pool _ _ fi k _ hb
      intro hn t ht
      obtain ⟨t2, ht2, hdep⟩ := hsub _ (List.getElem_mem hi2) hn
      rw [ht2] at ht
      cases ht
      exact hdep

/-! ## C18 -/

/-- C18, counterexample: `pkg.Zero` has one scalar field and refers to no type, so its
reference chains have one name, yet `GetTypeInfo` returns no `TypeInfo` for it: the
field's type code 0 has the symbolic name `0` and the slice panics. -/
theorem acyclic_type_panics :
    (∀ c, Chain zeroCodePool "pkg.Zero" c → c.length ≤ 1) ∧
    (∀ n, GetTypeInfo (n + 1) zeroCodePool "pkg.Zero" = .error .sliceBounds) ∧
    ¬ ∃ n r, GetTypeInfo n zeroCodePool "pkg.Zero" = .ok r := by
  have hpanic : ∀ n, GetTypeInfo (n + 1) zeroCodePool "pkg.Zero" = .error .sliceBounds :=
    fun n => rfl
  refine ⟨?_, hpanic, ?_⟩
  · intro c hc
    cases hc with
    | single _ d hd => simp
    | cons _ d f c2 hd hf hne hc2 =>
      have hd0 : zeroCodePool.getTypeDescriptor "pkg.Zero" = some zeroCodeDesc := rfl
      rw [hd0] at hd
      cases hd
      simp only [zeroCodeDesc, List.mem_singleton] at hf
      subst hf
      simp at hne
  · rintro ⟨n, r, h⟩
    cases n with
    | zero => simp [GetTypeInfo] at h
    | succ m => rw [hpanic m] at h; cases h

/-- C18, amended: when every reference chain from `typeName` has at most `L` names
(the reachable reference graph is finite and acyclic) and the slice is in range for
every field without type name of every message on such a chain, `GetTypeInfo` returns
a `TypeInfo` within call depth `L + 1`; the result nests at most `L` field lists, and
every node without fields in it is a scalar marker, the node of a name the pool cannot
resolve, or a message that declares no fields. -/
theorem acyclic_type_resolves (pool : descPool) (L : Nat) (typeName : String)
    (hL : ∀ c, Chain pool typeName c → c.length ≤ L)
    (hS : ∀ (c : List String) (name : String) (d : DescriptorProto),
      Chain pool typeName c → name ∈ c → pool.getTypeDescriptor name = some d →
      ∀ f ∈ d.Field, f.TypeName = "" →
        5 ≤ (FieldDescriptorProto_Type_String f.Typ).data.length) :
    ∃ r, GetTypeInfo (L + 1) pool typeName = .ok r ∧ r.depth ≤ L ∧
      (r.Fields = [] → pool.getTypeDescriptor typeName = none ∨
        ∃ d, pool.getTypeDescriptor typeName = some d ∧ d.Field = []) ∧
      (∀ (d : DescriptorProto) (f : FieldDescriptorProto) (fi : FieldInfo),
        pool.getTypeDescriptor typeName = some d → Expands pool d r f fi →
        fi.Typ.Fields = [] →
        f.TypeName = "" ∨ pool.getTypeDescriptor f.TypeName = none ∨
          ∃ d2, pool.getTypeDescriptor f.TypeName = some d2 ∧ d2.Field = []) := by
  obtain ⟨r, hr, hdepth⟩ := bounded_chains_return pool L typeName hL hS
  refine ⟨r, hr, hdepth, ?_, ?_⟩
  · intro hnil
    cases hd : pool.getTypeDescriptor typeName with
    | none => exact Or.inl rfl
    | some d =>
      right
      refine ⟨d, rfl, ?_⟩
      obtain ⟨m, fields, _, hb, hr2⟩ := resolved_call_inv pool (L + 1) typeName d r hd hr
      have hlen := (buildFields_forall₂ pool _ _ _ hb).length_eq
      have hf : fields = [] := by rw [hr2] at hnil; exact hnil
      rw [hf] at hlen
      exact List.length_eq_zero.mp hlen
  · intro d f fi hd hx hleaf
    exact leaf_kinds pool (L + 1) typeName d r hd hr f fi hx hleaf

theorem samplePool_sliceSafe : SliceSafe samplePool := by
  intro name d hd f hf hn
  simp only [samplePool] at hd
  split_ifs at hd <;> cases hd
  · simp only [helloRequestDesc, List.mem_cons, List.mem_singleton, List.not_mem_nil,
      or_false] at hf
    rcases hf with rfl | rfl | rfl | rfl | rfl <;> decide
  · simp only [helloReplyDesc, List.mem_singleton] at hf
    subst hf
    decide
  · simp only [innerDesc, List.mem_singleton] at hf
    subst hf
    decide
  · simp only [outerDesc, List.mem_singleton] at hf
    subst hf
    simp at hn

theorem samplePool_inner_chains : ∀ c, Chain samplePool "pkg.Inner" c → c.length ≤ 1 := by
  intro c hc
  cases hc with
  | single _ d hd => simp
  | cons _ d f c2 hd hf hne hc2 =>
    have hd0 : samplePool.getTypeDescriptor "pkg.Inner" = some innerDesc := rfl
    rw [hd0] at hd
    cases hd
    simp only [innerDesc, List.mem_singleton] at hf
    subst hf
    simp at hne

theorem samplePool_unresolved_chain (name : String)
    (h : samplePool.getTypeDescriptor name = none) : ∀ c, ¬ Chain samplePool name c := by
  intro c hc
  cases hc with
  | single _ d hd => rw [h] at hd; cases hd
  | cons _ d f c2 hd _ _ _ => rw [h] at hd; cases hd

theorem samplePool_request_chains :
    ∀ c, Chain samplePool "pkg.HelloRequest" c → c.length ≤ 2 := by
  intro c hc
  cases hc with
  | single _ d hd => simp
  | cons _ d f c2 hd hf hne hc2 =>
    have hd0 : samplePool.getTypeDescriptor "pkg.HelloRequest" = some helloRequestDesc := rfl
    rw [hd0] at hd
    cases hd
    simp only [helloRequestDesc, List.mem_cons, List.mem_singleton, List.not_mem_nil,
      or_false] at hf
    rcases hf with rfl | rfl | rfl | rfl | rfl
    · simp at hne
    · exact absurd hc2 (samplePool_unresolved_chain "pkg.Kind" rfl c2)
    · have := samplePool_inner_chains c2 hc2
      simp only [List.length_cons]
      omega
    · exact absurd hc2 (samplePool_unresolved_chain "missing.Type" rfl c2)
    · exact absurd hc2 (samplePool_unresolved_chain "pkg.NoEnum" rfl c2)

/-- C18, witness: `pkg.HelloRequest` of `samplePool`, whose longest reference chain
is `pkg.HelloRequest`, `pkg.Inner`. -/
theorem acyclic_type_resolves_witness :
    GetTypeInfo 3 samplePool "pkg.HelloRequest" = .ok helloRequestInfo ∧
    helloRequestInfo.depth = 2 ∧
    ∃ r, GetTypeInfo (2 + 1) samplePool "pkg.HelloRequest" = .ok r ∧ r.depth ≤ 2 ∧
      (r.Fields = [] → samplePool.getTypeDescriptor "pkg.HelloRequest" = none ∨
        ∃ d, samplePool.getTypeDescriptor "pkg.HelloRequest" = some d ∧ d.Field = []) ∧
      (∀ (d : DescriptorProto) (f : FieldDescriptorProto) (fi : FieldInfo),
        samplePool.getTypeDescriptor "pkg.HelloRequest" = some d → Expands samplePool d r f fi →
        fi.Typ.Fields = [] →
        f.TypeName = "" ∨ samplePool.getTypeDescriptor f.TypeName = none ∨
          ∃ d2, samplePool.getTypeDescriptor f.TypeName = some d2 ∧ d2.Field = []) :=
  ⟨rfl, rfl,
    acyclic_type_resolves samplePool 2 "pkg.HelloRequest" samplePool_request_chains
      (fun _ name d _ _ hd f hf hn => samplePool_sliceSafe name d hd f hf hn)⟩

/-! ## C19 -/

/-- C19, counterexample: the field `k` of `pkg.Holder` is classified enum and its type
name `pkg.Inner` resolves to a message; its `Type` is named `"enum"` but keeps the one
field of `Inner`. -/
theorem enum_field_keeps_fields :
    holderPool.getTypeDescriptor "pkg.Holder" = some holderDesc ∧
    (holderDesc.Field[0]?).map (fun f => (f.Typ, f.TypeName)) = some (14, "pkg.Inner") ∧
    holderPool.getTypeDescriptor "pkg.Inner" = some innerDesc ∧
    GetTypeInfo 2 holderPool "pkg.Holder" = .ok holderInfo ∧
    (holderInfo.Fields[0]?).map (fun fi => (fi.Typ.Name, fi.Typ.Fields.length)) =
      some ("enum", 1) ∧
    (holderInfo.Fields[0]?).map (fun fi => fi.Typ.Fields.length) ≠ some 0 :=
  ⟨rfl, rfl, rfl, rfl, rfl, by decide⟩

/-- C19, amended: in a `TypeInfo` returned for a resolved message, the `Type` of a field
classified enum has `Name` `"enum"` and `Id` the enum code.  Its `Fields` and `Options`
are empty when the field has no type name or the pool does not resolve the type name
to a message; when the pool resolves it to a message `d2`, `Fields` has one entry per
declared field of `d2` and `Options` are those of `d2`. -/
theorem enum_field_marker (pool : descPool) (n : Nat) (typeName : String)
    (d : DescriptorProto) (r : TypeInfo)
    (hd : pool.getTypeDescriptor typeName = some d)
    (hr : GetTypeInfo n pool typeName = .ok r)
    (i : Nat) (f : FieldDescriptorProto) (hf : d.Field[i]? = some f)
    (he : f.Typ = FieldDescriptorProto_TYPE_ENUM) :
    ∃ fi : FieldInfo,
      r.Fields[i]? = some fi ∧ fi.Typ.Name = "enum" ∧
      fi.Typ.Id = FieldDescriptorProto_TYPE_ENUM ∧
      ((f.TypeName = "" ∨ pool.getTypeDescriptor f.TypeName = none) →
        fi.Typ.Fields = [] ∧ fi.Typ.Options = none) ∧
      (f.TypeName ≠ "" → ∀ d2, pool.getTypeDescriptor f.TypeName = some d2 →
        fi.Typ.Fields.length = d2.Field.length ∧ fi.Typ.Options = d2.Options) := by
  obtain ⟨m, fi, _, hfi, hb⟩ := GetTypeInfo_field pool n typeName d r hd hr i f hf
  obtain ⟨ty, hty, _, _, _, _, htyp, _⟩ := buildField_inv pool _ f fi hb
  rw [if_pos he] at htyp
  refine ⟨fi, hfi, by rw [htyp]; rfl, ?_, ?_, ?_⟩
  · rw [htyp]
    by_cases hn : f.TypeName = ""
    · rw [fieldTypeInfo_scalar _ f hn] at hty
      rw [scalarTypeInfo_inv f.Typ ty hty, he]
      rfl
    · rw [fieldTypeInfo_named _ f hn] at hty
      cases hrec : GetTypeInfo m pool f.TypeName with
      | error e => simp [hrec] at hty
      | ok t0 =>
        simp only [hrec, Except.ok.injEq] at hty
        rw [← hty, he]
        rfl
  · intro hcase
    rw [htyp]
    by_cases hn : f.TypeName = ""
    · rw [fieldTypeInfo_scalar _ f hn] at hty
      rw [scalarTypeInfo_inv f.Typ ty hty]
      exact ⟨rfl, rfl⟩
    · have hun : pool.getTypeDescriptor f.TypeName = none := by
        rcases hcase with h | h
        · exact absurd h hn
        · exact h
      rw [fieldTypeInfo_named _ f hn] at hty
      cases m with
      | zero => simp [GetTypeInfo] at hty
      | succ k =>
        rw [unresolved_call pool f.TypeName k hun] at hty
        simp only [Except.ok.injEq] at hty
        rw [← hty]
        exact ⟨rfl, rfl⟩
  · intro hn d2 hd2
    rw [htyp]
    rw [fieldTypeInfo_named _ f hn] at hty
    cases hrec : GetTypeInfo m pool f.TypeName with
    | error e => simp [hrec] at hty
    | ok t0 =>
      simp only [hrec, Except.ok.injEq] at hty
      obtain ⟨m2, fields, _, hb2, ht0⟩ := resolved_call_inv pool m f.TypeName d2 t0 hd2 hrec
      have hlen := (buildFields_forall₂ pool _ _ _ hb2).length_eq
      rw [← hty, ht0]
      exact ⟨hlen.symm, rfl⟩

/-- C19, witness: the field `kind` (index 1) of `pkg.HelloRequest`; `samplePool` does
not resolve `pkg.Kind` to a message. -/
theorem enum_field_marker_witness :
    (helloRequestInfo.Fields[1]?).map (fun fi => fi.Typ.Fields.length) = some 0 ∧
    ∃ fi : FieldInfo,
      helloRequestInfo.Fields[1]? = some fi ∧ fi.Typ.Name = "enum" ∧
      fi.Typ.Id = FieldDescriptorProto_TYPE_ENUM ∧
      (("pkg.Kind" = "" ∨ samplePool.getTypeDescriptor "pkg.Kind" = none) →
        fi.Typ.Fields = [] ∧ fi.Typ.Options = none) ∧
      ("pkg.Kind" ≠ "" → ∀ d2, samplePool.getTypeDescriptor "pkg.Kind" = some d2 →
        fi.Typ.Fields.length = d2.Field.length ∧ fi.Typ.Options = d2.Options) :=
  ⟨rfl,
    enum_field_marker samplePool 2 "pkg.HelloRequest" helloRequestDesc helloRequestInfo rfl rfl 1
      { Name := "kind", Number := 2, Label := 1, Typ := 14, TypeName := "pkg.Kind",
        Options := none } rfl rfl⟩

/-! ## C20 -/

theorem undefined_code_name (c : Int) (h : ¬ (1 ≤ c ∧ c ≤ 18)) :
    FieldDescriptorProto_Type_String c = Itoa c := by
  have hnone : FieldDescriptorProto_Type_name.lookup c = none := by
    rw [List.lookup_eq_none_iff]
    intro p hp
    have hrange : ∀ q ∈ FieldDescriptorProto_Type_name, 1 ≤ q.1 ∧ q.1 ≤ 18 := by decide
    have := hrange p hp
    simp only [bne_iff_ne, ne_eq]
    omega
  unfold FieldDescriptorProto_Type_String
  rw [hnone]

theorem Itoa_short (c : Int) (hlo : -999 ≤ c) (hhi : c ≤ 9999) : (Itoa c).data.length < 5 := by
  cases c with
  | ofNat k =>
    have hk : k < 10 ^ 4 := by
      have : (k : Int) ≤ 9999 := hhi
      omega
    have := Nat.repr_length k 4 (by decide) hk
    simp only [Itoa]
    exact Nat.lt_succ_of_le this
  | negSucc k =>
    have hk : k + 1 < 10 ^ 3 := by
      have h1 : (-999 : Int) ≤ Int.negSucc k := hlo
      rw [Int.negSucc_eq] at h1
      omega
    have := Nat.repr_length (k + 1) 3 (by decide) hk
    have h2 : (Nat.repr (k + 1)).data.length = (Nat.repr (k + 1)).length := rfl
    simp only [Itoa, String.data_append, List.length_append, List.length_cons,
      List.length_nil]
    omega

theorem defined_code_facts (c : Int) (h1 : 1 ≤ c) (h18 : c ≤ 18) :
    5 < (FieldDescriptorProto_Type_String c).data.length ∧
    ToLower ((FieldDescriptorProto_Type_String c).data.drop 5) ≠ [] ∧
    ∀ ch ∈ ToLower ((FieldDescriptorProto_Type_String c).data.drop 5), ch.isUpper = false := by
  interval_cases c <;> decide

/-- C20, counterexample: the code 123456 is outside the defined set, its symbolic name
`123456` has six characters, and the slice from offset 5 is in range: the field's `Type`
is built, with `Name` `"6"`. -/
theorem long_numeral_slice_in_range :
    ¬ ((1 : Int) ≤ 123456 ∧ (123456 : Int) ≤ 18) ∧
    FieldDescriptorProto_Type_String 123456 = "123456" ∧
    scalarTypeInfo 123456 = .ok (.mk 123456 "6" [] none) ∧
    scalarTypeInfo 123456 ≠ .error .sliceBounds := by
  refine ⟨by decide, by decide, rfl, ?_⟩
  intro h
  have h2 : scalarTypeInfo 123456 = .ok (.mk 123456 "6" [] none) := rfl
  rw [h2] at h
  cases h

/-- C20, amended: for a field without type name, whatever the recursion does: if its
code is one of the 18 defined codes, the symbolic name is `TYPE_` followed by a keyword
and is longer than five characters, the loop iteration does not panic, and the
resulting `Type.Name` is the lowercased keyword, non-empty and without upper-case
letters.  If the code is outside the defined set, the symbolic name is its decimal
numeral and the iteration panics in the slice exactly when the numeral has fewer than
five characters, which is the case for every such code from -999 to 9999. -/
theorem scalar_keyword_safe (pool : descPool) (recur : String → Except Fault TypeInfo)
    (f : FieldDescriptorProto) (hn : f.TypeName = "") :
    ((1 ≤ f.Typ ∧ f.Typ ≤ 18) →
      ∃ (kw : List Char) (fi : FieldInfo),
        (FieldDescriptorProto_Type_String f.Typ).data = "TYPE_".data ++ kw ∧
        5 < (FieldDescriptorProto_Type_String f.Typ).data.length ∧
        buildField pool recur f = .ok fi ∧
        fi.Typ.Name = String.mk (ToLower kw) ∧ fi.Typ.Name ≠ "" ∧
        ∀ ch ∈ fi.Typ.Name.data, ch.isUpper = false) ∧
    (¬ (1 ≤ f.Typ ∧ f.Typ ≤ 18) →
      FieldDescriptorProto_Type_String f.Typ = Itoa f.Typ ∧
      (buildField pool recur f = .error .sliceBounds ↔ (Itoa f.Typ).data.length < 5) ∧
      ((-999 ≤ f.Typ ∧ f.Typ ≤ 9999) → buildField pool recur f = .error .sliceBounds)) := by
  have hbuild : ∀ ty, scalarTypeInfo f.Typ = .ok ty → ∃ fi : FieldInfo,
      buildField pool recur f = .ok fi ∧
      fi.Typ = (if f.Typ = FieldDescriptorProto_TYPE_ENUM then ty.setName "enum" else ty) := by
    intro ty hty
    unfold buildField
    rw [fieldTypeInfo_scalar _ f hn, hty]
    exact ⟨_, rfl, rfl⟩
  have hpanic : (FieldDescriptorProto_Type_String f.Typ).data.length < 5 →
      buildField pool recur f = .error .sliceBounds := by
    intro hlt
    unfold buildField
    rw [fieldTypeInfo_scalar _ f hn]
    unfold scalarTypeInfo
    simp only
    rw [if_pos hlt]
  constructor
  · rintro ⟨h1, h18⟩
    obtain ⟨hlen, hne, hlow⟩ := defined_code_facts f.Typ h1 h18
    obtain ⟨fi, hfi, htyp⟩ := hbuild _ (scalarTypeInfo_ok f.Typ (by omega))
    have hname : fi.Typ.Name =
        String.mk (ToLower ((FieldDescriptorProto_Type_String f.Typ).data.drop 5)) := by
      rw [htyp]
      split
      · next he => rw [he]; rfl
      · rfl
    refine ⟨(FieldDescriptorProto_Type_String f.Typ).data.drop 5, fi,
      defined_code_name f.Typ h1 h18, hlen, hfi, hname, ?_, ?_⟩
    · rw [hname]
      intro hcontra
      apply hne
      have := congrArg String.data hcontra
      simpa using this
    · rw [hname]
      exact hlow
  · intro hout
    have hstr := undefined_code_name f.Typ hout
    refine ⟨hstr, ⟨?_, ?_⟩, ?_⟩
    · intro herr
      by_contra hge
      rw [← hstr] at hge
      obtain ⟨fi, hfi, _⟩ := hbuild _ (scalarTypeInfo_ok f.Typ (by omega))
      rw [hfi] at herr
      cases herr
    · intro hlt
      rw [← hstr] at hlt
      exact hpanic hlt
    · rintro ⟨hlo, hhi⟩
      apply hpanic
      rw [hstr]
      exact Itoa_short f.Typ hlo hhi

/-- C20, witness: a field of type `int32` (code 5) and no type name. -/
theorem scalar_keyword_safe_witness :
    buildField samplePool (GetTypeInfo 0 samplePool)
      { Name := "count", Number := 1, Label := 1, Typ := 5, TypeName := "", Options := none } =
      .ok { Name := "count", Number := 1, Label := 1, Typ := .mk 5 "int32" [] none
            Enum := { Name := "", Values := [] }, Options := none } ∧
    (((1 : Int) ≤ 5 ∧ (5 : Int) ≤ 18) →
      ∃ (kw : List Char) (fi : FieldInfo),
        (FieldDescriptorProto_Type_String 5).data = "TYPE_".data ++ kw ∧
        5 < (FieldDescriptorProto_Type_String 5).data.length ∧
        buildField samplePool (GetTypeInfo 0 samplePool)
          { Name := "count", Number := 1, Label := 1, Typ := 5, TypeName := "",
            Options := none } = .ok fi ∧
        fi.Typ.Name = String.mk (ToLower kw) ∧ fi.Typ.Name ≠ "" ∧
        ∀ ch ∈ fi.Typ.Name.data, ch.isUpper = false) :=
  ⟨rfl,
    (scalar_keyword_safe samplePool (GetTypeInfo 0 samplePool)
      { Name := "count", Number := 1, Label := 1, Typ := 5, TypeName := "", Options := none }
      rfl).1⟩

/-! ### The traced functions compute the same results -/

theorem traceFieldType_snd (recurT : String → List Event × Except Fault TypeInfo)
    (recur : String → Except Fault TypeInfo) (h : ∀ s, (recurT s).2 = recur s)
    (f : FieldDescriptorProto) : (traceFieldType recurT f).2 = fieldTypeInfo recur f := by
  unfold traceFieldType fieldTypeInfo
  split
  · rw [← h f.TypeName]
    rcases hr : recurT f.TypeName with ⟨tr, (e | t)⟩ <;> rfl
  · rfl

theorem traceField_snd (pool : descPool)
    (recurT : String → List Event × Except Fault TypeInfo)
    (recur : String → Except Fault TypeInfo) (h : ∀ s, (recurT s).2 = recur s)
    (f : FieldDescriptorProto) : (traceField pool recurT f).2 = buildField pool recur f := by
  unfold traceField buildField
  rw [← traceFieldType_snd recurT recur h f]
  rcases hr : traceFieldType recurT f with ⟨tr, (e | t)⟩ <;> rfl

theorem traceFields_snd (pool : descPool)
    (recurT : String → List Event × Except Fault TypeInfo)
    (recur : String → Except Fault TypeInfo) (h : ∀ s, (recurT s).2 = recur s) :
    ∀ fs : List FieldDescriptorProto,
      (traceFields pool recurT fs).2 = buildFields pool recur fs := by
  intro fs
  induction fs with
  | nil => rfl
  | cons f rest ih =>
    simp only [traceFields, buildFields]
    rw [← traceField_snd pool recurT recur h f, ← ih]
    rcases hf : traceField pool recurT f with ⟨tr, (e | fi)⟩
    · rfl
    · rcases hr : traceFields pool recurT rest with ⟨tr2, (e | fis)⟩ <;> rfl

theorem GetTypeInfoTrace_snd (pool : descPool) :
    ∀ (n : Nat) (typeName : String),
      (GetTypeInfoTrace n pool typeName).2 = GetTypeInfo n pool typeName := by
  intro n
  induction n with
  | zero => intro typeName; rfl
  | succ m ih =>
    intro typeName
    simp only [GetTypeInfoTrace, GetTypeInfo]
    cases hd : pool.getTypeDescriptor typeName with
    | none => rfl
    | some d =>
      simp only []
      rw [← traceFields_snd pool (GetTypeInfoTrace m pool) (GetTypeInfo m pool) ih d.Field]
      rcases hf : traceFields pool (GetTypeInfoTrace m pool) d.Field with ⟨tr, (e | fs)⟩ <;> rfl

theorem traceMethods_snd (n : Nat) (pool : descPool) :
    ∀ ms : List MethodDescriptorProto,
      (traceMethods n pool ms).2 = buildMethods n pool ms := by
  intro ms
  induction ms with
  | nil => rfl
  | cons m rest ih =>
    simp only [traceMethods, buildMethods]
    rw [← GetTypeInfoTrace_snd pool n m.InputType, ← GetTypeInfoTrace_snd pool n m.OutputType,
      ← ih]
    rcases h1 : GetTypeInfoTrace n pool m.InputType with ⟨tr1, (e | tin)⟩
    · rfl
    · rcases h2 : GetTypeInfoTrace n pool m.OutputType with ⟨tr2, (e | tout)⟩
      · rfl
      · rcases h3 : traceMethods n pool rest with ⟨tr3, (e | ms2)⟩ <;> rfl

theorem traceServices_snd (n : Nat) (pool : descPool) :
    ∀ svcs : List (String × ServiceDescriptorProto),
      (traceServices n pool svcs).2 = buildServices n pool svcs := by
  intro svcs
  induction svcs with
  | nil => rfl
  | cons e rest ih =>
    obtain ⟨sname, descr⟩ := e
    simp only [traceServices, buildServices]
    split
    · exact ih
    · cases hn : descr.Name with
      | none => rfl
      | some name =>
        simp only []
        rw [← traceMethods_snd n pool descr.Method, ← ih]
        rcases h1 : traceMethods n pool descr.Method with ⟨tr, (e | ms)⟩
        · rfl
        · rcases h2 : traceServices n pool rest with ⟨tr2, (e | res)⟩ <;> rfl

theorem GetInfoTrace_snd (n : Nat) (pool : descPool) :
    (GetInfoTrace n pool).2 = GetInfo n pool := by
  unfold GetInfoTrace GetInfo
  cases hc : pool.connect with
  | some err => rfl
  | none =>
    cases hs : pool.getServicesDescriptors with
    | error err => rfl
    | ok svcs =>
      simp only []
      rw [← traceServices_snd n pool svcs]
      rcases h1 : traceServices n pool svcs with ⟨tr, (e | res)⟩
      · cases e <;> rfl
      · rfl

/-! ### Type resolution makes only lookups -/

theorem traceFieldType_lookups (recurT : String → List Event × Except Fault TypeInfo)
    (h : ∀ s, ∀ ev ∈ (recurT s).1, ev.isLookup = true) (f : FieldDescriptorProto) :
    ∀ ev ∈ (traceFieldType recurT f).1, ev.isLookup = true := by
  unfold traceFieldType
  split
  · have := h f.TypeName
    rcases hr : recurT f.TypeName with ⟨tr, (e | t)⟩ <;> (rw [hr] at this; exact this)
  · intro ev hev; simp at hev

theorem traceField_lookups (pool : descPool)
    (recurT : String → List Event × Except Fault TypeInfo)
    (h : ∀ s, ∀ ev ∈ (recurT s).1, ev.isLookup = true) (f : FieldDescriptorProto) :
    ∀ ev ∈ (traceField pool recurT f).1, ev.isLookup = true := by
  have := traceFieldType_lookups recurT h f
  unfold traceField
  rcases hr : traceFieldType recurT f with ⟨tr, (e | t)⟩
  · rw [hr] at this; exact this
  · rw [hr] at this
    intro ev hev
    simp only [List.mem_append] at hev
    rcases hev with hev | hev
    · exact this ev hev
    · split at hev
      · simp only [List.mem_singleton] at hev
        rw [hev]; rfl
      · simp at hev

theorem traceFields_lookups (pool : descPool)
    (recurT : String → List Event × Except Fault TypeInfo)
    (h : ∀ s, ∀ ev ∈ (recurT s).1, ev.isLookup = true) :
    ∀ fs : List FieldDescriptorProto,
      ∀ ev ∈ (traceFields pool recurT fs).1, ev.isLookup = true := by
  intro fs
  induction fs with
  | nil => intro ev hev; simp [traceFields] at hev
  | cons f rest ih =>
    have hf := traceField_lookups pool recurT h f
    simp only [traceFields]
    rcases h1 : traceField pool recurT f with ⟨tr, (e | fi)⟩
    · rw [h1] at hf; exact hf
    · rw [h1] at hf
      rcases h2 : traceFields pool recurT rest with ⟨tr2, (e | fis)⟩ <;>
        (rw [h2] at ih
         intro ev hev
         simp only [List.mem_append] at hev
         rcases hev with hev | hev
         · exact hf ev hev
         · exact ih ev hev)

theorem GetTypeInfoTrace_lookups (pool : descPool) :
    ∀ (n : Nat) (typeName : String),
      ∀ ev ∈ (GetTypeInfoTrace n pool typeName).1, ev.isLookup = true := by
  intro n
  induction n with
  | zero => intro typeName ev hev; simp [GetTypeInfoTrace] at hev
  | succ m ih =>
    intro typeName
    simp only [GetTypeInfoTrace]
    cases hd : pool.getTypeDescriptor typeName with
    | none =>
      intro ev hev
      simp only [List.mem_singleton] at hev
      rw [hev]; rfl
    | some d =>
      have hfs := traceFields_lookups pool (GetTypeInfoTrace m pool) ih d.Field
      simp only []
      rcases h1 : traceFields pool (GetTypeInfoTrace m pool) d.Field with ⟨tr, (e | fs)⟩ <;>
        (rw [h1] at hfs
         intro ev hev
         simp only [List.mem_cons] at hev
         rcases hev with hev | hev
         · rw [hev]; rfl
         · exact hfs ev hev)

theorem traceMethods_lookups (n : Nat) (pool : descPool) :
    ∀ ms : List MethodDescriptorProto,
      ∀ ev ∈ (traceMethods n pool ms).1, ev.isLookup = true := by
  intro ms
  induction ms with
  | nil => intro ev hev; simp [traceMethods] at hev
  | cons m rest ih =>
    have hin := GetTypeInfoTrace_lookups pool n m.InputType
    have hout := GetTypeInfoTrace_lookups pool n m.OutputType
    simp only [traceMethods]
    rcases h1 : GetTypeInfoTrace n pool m.InputType with ⟨tr1, (e | tin)⟩
    · rw [h1] at hin; exact hin
    · rw [h1] at hin
      rcases h2 : GetTypeInfoTrace n pool m.OutputType with ⟨tr2, (e | tout)⟩
      · rw [h2] at hout
        intro ev hev
        simp only [List.mem_append] at hev
        rcases hev with hev | hev
        · exact hin ev hev
        · exact hout ev hev
      · rw [h2] at hout
        rcases h3 : traceMethods n pool rest with ⟨tr3, (e | ms2)⟩ <;>
          (rw [h3] at ih
           intro ev hev
           simp only [List.mem_append] at hev
           rcases hev with (hev | hev) | hev
           · exact hin ev hev
           · exact hout ev hev
           · exact ih ev hev)

theorem traceServices_lookups (n : Nat) (pool : descPool) :
    ∀ svcs : List (String × ServiceDescriptorProto),
      ∀ ev ∈ (traceServices n pool svcs).1, ev.isLookup = true := by
  intro svcs
  induction svcs with
  | nil => intro ev hev; simp [traceServices] at hev
  | cons e rest ih =>
    obtain ⟨sname, descr⟩ := e
    simp only [traceServices]
    split
    · exact ih
    · cases hn : descr.Name with
      | none => intro ev hev; simp at hev
      | some name =>
        have hm := traceMethods_lookups n pool descr.Method
        simp only []
        rcases h1 : traceMethods n pool descr.Method with ⟨tr, (e | ms)⟩
        · rw [h1] at hm; exact hm
        · rw [h1] at hm
          rcases h2 : traceServices n pool rest with ⟨tr2, (e | res)⟩ <;>
            (rw [h2] at ih
             intro ev hev
             simp only [List.mem_append] at hev
             rcases hev with hev | hev
             · exact hm ev hev
             · exact ih ev hev)

/-! ### `GetInfo` and the call-depth budget -/

theorem buildMethods_mono (n k : Nat) (pool : descPool) :
    ∀ (ms : List MethodDescriptorProto) (res : List Method),
      buildMethods n pool ms = .ok res → buildMethods (n + k) pool ms = .ok res := by
  intro ms
  induction ms with
  | nil => intro res h; exact h
  | cons m rest ih =>
    intro res h
    simp only [buildMethods] at h ⊢
    cases hin : GetTypeInfo n pool m.InputType with
    | error e => simp [hin] at h
    | ok tin =>
      cases hout : GetTypeInfo n pool m.OutputType with
      | error e => simp [hin, hout] at h
      | ok tout =>
        cases hrest : buildMethods n pool rest with
        | error e => simp [hin, hout, hrest] at h
        | ok ms2 =>
          simp only [hin, hout, hrest] at h
          simp only [GetTypeInfo_mono pool n k _ _ hin, GetTypeInfo_mono pool n k _ _ hout,
            ih ms2 hrest]
          exact h

theorem buildServices_mono (n k : Nat) (pool : descPool) :
    ∀ (svcs : List (String × ServiceDescriptorProto)) (res : List Service),
      buildServices n pool svcs = .ok res → buildServices (n + k) pool svcs = .ok res := by
  intro svcs
  induction svcs with
  | nil => intro res h; exact h
  | cons e rest ih =>
    intro res h
    obtain ⟨sname, descr⟩ := e
    simp only [buildServices] at h ⊢
    split at h
    · next hp => rw [if_pos hp]; exact ih res h
    · next hp =>
      rw [if_neg hp]
      cases hname : descr.Name with
      | none => simp [hname] at h
      | some name =>
        cases hm : buildMethods n pool descr.Method with
        | error e => simp [hname, hm] at h
        | ok methods =>
          cases hrest : buildServices n pool rest with
          | error e => simp [hname, hm, hrest] at h
          | ok res2 =>
            simp only [hname, hm, hrest] at h
            simp only [buildMethods_mono n k pool _ _ hm, ih res2 hrest]
            exact h

/-! ### `GetInfo` depends on the pool through its answers only -/

theorem buildFields_congr (p1 p2 : descPool) (he : p1.getEnumDescriptor = p2.getEnumDescriptor)
    (recur : String → Except Fault TypeInfo) :
    ∀ fs : List FieldDescriptorProto, buildFields p1 recur fs = buildFields p2 recur fs := by
  intro fs
  induction fs with
  | nil => rfl
  | cons f rest ih =>
    have hf : buildField p1 recur f = buildField p2 recur f := by
      simp only [buildField, enumInfoOf, he]
    simp only [buildFields, hf, ih]

theorem GetTypeInfo_congr (p1 p2 : descPool)
    (ht : p1.getTypeDescriptor = p2.getTypeDescriptor)
    (he : p1.getEnumDescriptor = p2.getEnumDescriptor) :
    ∀ n, GetTypeInfo n p1 = GetTypeInfo n p2 := by
  intro n
  induction n with
  | zero => rfl
  | succ m ih =>
    funext typeName
    simp only [GetTypeInfo, ht, ih, buildFields_congr p1 p2 he]

theorem buildServices_congr (p1 p2 : descPool)
    (ht : p1.getTypeDescriptor = p2.getTypeDescriptor)
    (he : p1.getEnumDescriptor = p2.getEnumDescriptor) (n : Nat) :
    ∀ svcs, buildServices n p1 svcs = buildServices n p2 svcs := by
  have hm : ∀ ms, buildMethods n p1 ms = buildMethods n p2 ms := by
    intro ms
    induction ms with
    | nil => rfl
    | cons m rest ih => simp only [buildMethods, GetTypeInfo_congr p1 p2 ht he n, ih]
  intro svcs
  induction svcs with
  | nil => rfl
  | cons e rest ih =>
    obtain ⟨sname, descr⟩ := e
    simp only [buildServices, hm, ih]

/-- At most one `Service` answers to an entry of the service map. -/
theorem service_of_entry_unique (n : Nat) (pool : descPool) :
    Relator.RightUnique
      (fun (e : String × ServiceDescriptorProto) (s : Service) =>
        e.2.Name = some s.Name ∧ s.PackageName = packageNameOf e.1 ∧
          buildMethods n pool e.2.Method = .ok s.Methods) := by
  intro e s1 s2 h1 h2
  obtain ⟨hn1, hp1, hm1⟩ := h1
  obtain ⟨hn2, hp2, hm2⟩ := h2
  cases s1 with
  | mk n1 p1 m1 =>
    cases s2 with
    | mk n2 p2 m2 =>
      simp only at hn1 hp1 hm1 hn2 hp2 hm2
      rw [hn1] at hn2
      rw [hm1] at hm2
      simp only [Option.some.injEq, Except.ok.injEq] at hn2 hm2
      rw [hn2, hm2, hp1, hp2]

/-! ## C17 -/

/-- C17, counterexample: `orderPoolA` and `orderPoolB` answer every lookup alike and
list the same two services; the map is enumerated in two orders and the two results
list the services in two orders. -/
theorem enumeration_order_changes_result :
    orderPoolA.getTypeDescriptor = orderPoolB.getTypeDescriptor ∧
    orderPoolA.getEnumDescriptor = orderPoolB.getEnumDescriptor ∧
    orderPoolA.getServicesDescriptors = .ok [("a/S", serviceS), ("b/T", serviceT)] ∧
    orderPoolB.getServicesDescriptors = .ok [("b/T", serviceT), ("a/S", serviceS)] ∧
    List.Perm [("a/S", serviceS), ("b/T", serviceT)] [("b/T", serviceT), ("a/S", serviceS)] ∧
    GetInfo 1 orderPoolA =
      .ok (.ok [{ Name := "S", PackageName := "a", Methods := [] },
                { Name := "T", PackageName := "b", Methods := [] }]) ∧
    GetInfo 1 orderPoolB =
      .ok (.ok [{ Name := "T", PackageName := "b", Methods := [] },
                { Name := "S", PackageName := "a", Methods := [] }]) ∧
    GetInfo 1 orderPoolA ≠ GetInfo 1 orderPoolB := by
  refine ⟨rfl, rfl, rfl, rfl, List.Perm.swap _ _ _, rfl, rfl, ?_⟩
  intro h
  have hA : GetInfo 1 orderPoolA =
      .ok (.ok [{ Name := "S", PackageName := "a", Methods := [] },
                { Name := "T", PackageName := "b", Methods := [] }]) := rfl
  have hB : GetInfo 1 orderPoolB =
      .ok (.ok [{ Name := "T", PackageName := "b", Methods := [] },
                { Name := "S", PackageName := "a", Methods := [] }]) := rfl
  rw [hA, hB] at h
  simp only [Except.ok.injEq, List.cons.injEq, Service.mk.injEq] at h
  exact absurd h.1.1 (by decide)

theorem buildServices_of_forall₂ (n : Nat) (pool : descPool) :
    ∀ (svcs : List (String × ServiceDescriptorProto)) (res : List Service),
      List.Forall₂
        (fun e s => e.2.Name = some s.Name ∧ s.PackageName = packageNameOf e.1 ∧
          buildMethods n pool e.2.Method = .ok s.Methods)
        (svcs.filter (fun e => decide (packageNameOf e.1 ≠ "grpc.reflection.v1alpha"))) res →
      buildServices n pool svcs = .ok res := by
  intro svcs
  induction svcs with
  | nil =>
    intro res h
    simp only [List.filter_nil] at h
    cases h
    rfl
  | cons e rest ih =>
    intro res h
    obtain ⟨sname, descr⟩ := e
    simp only [buildServices]
    by_cases hp : packageNameOf sname = "grpc.reflection.v1alpha"
    · rw [if_pos hp]
      rw [List.filter_cons_of_neg (by simpa using hp)] at h
      exact ih res h
    · rw [if_neg hp]
      rw [List.filter_cons_of_pos (by simpa using hp)] at h
      cases h with
      | cons hhead htail =>
        obtain ⟨hname, hpk, hm⟩ := hhead
        simp only at hname hpk hm
        simp only [hname, hm, ih _ htail, ← hpk]

/-- C17, amended: take two sources that answer every lookup alike and list the same
service map, each enumerating it in its own order, the second with no connection
error.  When `GetInfo` returns a list on the first, it returns a list on the second
(the same one at every sufficient call depth), with the same services, methods and
`TypeInfo` trees up to the order of the list: one result is a permutation of the
other, and they are equal when the two enumerations are. -/
theorem GetInfo_deterministic_up_to_order (p1 p2 : descPool) (n1 : Nat)
    (l1 l2 : List (String × ServiceDescriptorProto)) (r1 : List Service)
    (ht : p1.getTypeDescriptor = p2.getTypeDescriptor)
    (he : p1.getEnumDescriptor = p2.getEnumDescriptor)
    (h1 : p1.getServicesDescriptors = .ok l1)
    (h2 : p2.getServicesDescriptors = .ok l2)
    (hperm : l1.Perm l2)
    (hc2 : p2.connect = none)
    (hr1 : GetInfo n1 p1 = .ok (.ok r1)) :
    ∃ r2, GetInfo n1 p2 = .ok (.ok r2) ∧ r1.Perm r2 ∧ (l1 = l2 → r1 = r2) ∧
      ∀ n2 r, GetInfo n2 p2 = .ok (.ok r) → r = r2 := by
  have hb1 := GetInfo_inv n1 p1 r1 l1 hr1 h1
  have f1 := buildServices_forall₂ n1 p1 l1 r1 hb1
  have hu := (service_of_entry_unique n1 p1).forall₂
  obtain ⟨r2, hf2, hperm2⟩ := List.perm_comp_forall₂
    (hperm.symm.filter (fun e => decide (packageNameOf e.1 ≠ "grpc.reflection.v1alpha"))) f1
  have hb2 : buildServices n1 p2 l2 = .ok r2 := by
    rw [← buildServices_congr p1 p2 ht he]
    exact buildServices_of_forall₂ n1 p1 l2 r2 hf2
  refine ⟨r2, by simp only [GetInfo, hc2, h2, hb2], hperm2.symm, ?_, ?_⟩
  · intro hl
    rw [← hl] at hf2
    exact hu f1 hf2
  · intro n2 r hr
    have hb := buildServices_mono n2 n1 p2 l2 r (GetInfo_inv n2 p2 r l2 hr h2)
    have hb3 := buildServices_mono n1 n2 p2 l2 r2 hb2
    rw [Nat.add_comm n1 n2, hb] at hb3
    simp only [Except.ok.injEq] at hb3
    exact hb3

/-- C17, witness: `orderPoolA` and `orderPoolB`. -/
theorem GetInfo_deterministic_up_to_order_witness :
    ∃ r2, GetInfo 1 orderPoolB = .ok (.ok r2) ∧
      List.Perm
        [({ Name := "S", PackageName := "a", Methods := [] } : Service),
          { Name := "T", PackageName := "b", Methods := [] }] r2 ∧
      ((([("a/S", serviceS), ("b/T", serviceT)] : List (String × ServiceDescriptorProto)) =
          [("b/T", serviceT), ("a/S", serviceS)]) →
        [({ Name := "S", PackageName := "a", Methods := [] } : Service),
          { Name := "T", PackageName := "b", Methods := [] }] = r2) ∧
      ∀ n2 r, GetInfo n2 orderPoolB = .ok (.ok r) → r = r2 :=
  GetInfo_deterministic_up_to_order orderPoolA orderPoolB 1 _ _ _ rfl rfl rfl rfl
    (List.Perm.swap _ _ _) rfl rfl

/-! ### When `GetInfo` returns a list -/

theorem buildMethods_ok_of (n : Nat) (pool : descPool) :
    ∀ ms : List MethodDescriptorProto,
      (∀ m ∈ ms, (∃ t, GetTypeInfo n pool m.InputType = .ok t) ∧
        (∃ t, GetTypeInfo n pool m.OutputType = .ok t)) →
      ∃ res, buildMethods n pool ms = .ok res := by
  intro ms
  induction ms with
  | nil => intro _; exact ⟨[], rfl⟩
  | cons m rest ih =>
    intro h
    obtain ⟨⟨tin, hin⟩, ⟨tout, hout⟩⟩ := h m (List.mem_cons_self _ _)
    obtain ⟨res, hres⟩ := ih (fun x hx => h x (List.mem_cons_of_mem _ hx))
    simp only [buildMethods, hin, hout, hres]
    exact ⟨_, rfl⟩

theorem buildMethods_ok_inv (n : Nat) (pool : descPool) (ms : List MethodDescriptorProto)
    (res : List Method) (h : buildMethods n pool ms = .ok res) :
    ∀ m ∈ ms, (∃ t, GetTypeInfo n pool m.InputType = .ok t) ∧
      (∃ t, GetTypeInfo n pool m.OutputType = .ok t) := by
  intro m hm
  obtain ⟨i, hi, hget⟩ := List.getElem_of_mem hm
  have hsome : ms[i]? = some m := by rw [List.getElem?_eq_getElem hi, hget]
  obtain ⟨mi, _, _, hin, hout, _⟩ :=
    forall₂_getElem? (buildMethods_forall₂ n pool ms res h) i m hsome
  exact ⟨⟨_, hin⟩, ⟨_, hout⟩⟩

theorem buildServices_ok_of (n : Nat) (pool : descPool) :
    ∀ svcs : List (String × ServiceDescriptorProto),
      ServicesResolve n pool svcs → ∃ res, buildServices n pool svcs = .ok res := by
  intro svcs
  induction svcs with
  | nil => intro _; exact ⟨[], rfl⟩
  | cons e rest ih =>
    intro h
    obtain ⟨sname, descr⟩ := e
    obtain ⟨res, hres⟩ := ih (fun x hx => h x (List.mem_cons_of_mem _ hx))
    simp only [buildServices]
    by_cases hp : packageNameOf sname = "grpc.reflection.v1alpha"
    · rw [if_pos hp]; exact ⟨res, hres⟩
    · rw [if_neg hp]
      obtain ⟨⟨name, hname⟩, hm⟩ := h (sname, descr) (List.mem_cons_self _ _) hp
      obtain ⟨ms, hms⟩ := buildMethods_ok_of n pool descr.Method hm
      simp only at hname hms
      simp only [hname, hms, hres]
      exact ⟨_, rfl⟩

theorem buildServices_ok_inv (n : Nat) (pool : descPool)
    (svcs : List (String × ServiceDescriptorProto)) (res : List Service)
    (h : buildServices n pool svcs = .ok res) : ServicesResolve n pool svcs := by
  intro e he hp
  have hkept : e ∈
      svcs.filter (fun e => decide (packageNameOf e.1 ≠ "grpc.reflection.v1alpha")) := by
    rw [List.mem_filter]
    exact ⟨he, by simpa using hp⟩
  obtain ⟨i, hi, hget⟩ := List.getElem_of_mem hkept
  have hsome : (svcs.filter
      (fun e => decide (packageNameOf e.1 ≠ "grpc.reflection.v1alpha")))[i]? = some e := by
    rw [List.getElem?_eq_getElem hi, hget]
  obtain ⟨s, _, hname, _, hm⟩ :=
    forall₂_getElem? (buildServices_forall₂ n pool svcs res h) i e hsome
  exact ⟨⟨s.Name, hname⟩, buildMethods_ok_inv n pool e.2.Method s.Methods hm⟩

/-- The function `GetInfo` returns a list exactly when the connection and the listing
succeed and the service loop completes. -/
theorem GetInfo_list_iff (n : Nat) (pool : descPool) :
    (∃ res, GetInfo n pool = .ok (.ok res)) ↔
      (pool.connect = none ∧
        ∃ svcs, pool.getServicesDescriptors = .ok svcs ∧ ServicesResolve n pool svcs) := by
  constructor
  · rintro ⟨res, h⟩
    unfold GetInfo at h
    cases hc : pool.connect with
    | some e => simp [hc] at h
    | none =>
      cases hs : pool.getServicesDescriptors with
      | error e => simp [hc, hs] at h
      | ok svcs =>
        simp only [hc, hs] at h
        cases hb : buildServices n pool svcs with
        | error e => simp [hb] at h
        | ok res2 => exact ⟨rfl, svcs, rfl, buildServices_ok_inv n pool svcs res2 hb⟩
  · rintro ⟨hc, svcs, hs, hres⟩
    obtain ⟨res, hb⟩ := buildServices_ok_of n pool svcs hres
    exact ⟨res, by simp only [GetInfo, hc, hs, hb]⟩

theorem samplePool_servicesResolve :
    ServicesResolve 3 samplePool
      [ ("grpc.reflection.v1alpha/ServerReflection", emptyServiceDesc),
        ("pkg.Greeter", greeterDesc),
        ("grpc.reflection.v1alpha2/ServerReflection", emptyServiceDesc) ] := by
  apply buildServices_ok_inv 3 samplePool _ sampleServices
  rfl

theorem cyclicServicePool_diverges :
    ∀ n, GetInfo n cyclicServicePool = .error .fuel := by
  intro n
  have hrec : GetTypeInfo n cyclicServicePool "pkg.Node" = .error .fuel := by
    rw [GetTypeInfo_congr cyclicServicePool cyclicPool rfl rfl n]
    exact cyclicPool_diverges n
  have hc : cyclicServicePool.connect = none := rfl
  have hs : cyclicServicePool.getServicesDescriptors = .ok [("pkg/Tree", treeServiceDesc)] :=
    rfl
  have hp : packageNameOf "pkg/Tree" ≠ "grpc.reflection.v1alpha" := by decide
  simp only [GetInfo, hc, hs, buildServices, if_neg hp, treeServiceDesc, buildMethods, hrec]

/-! ## C9 -/

/-- C9, counterexample: the service keyed `pkg/Tree` passes the filter, the connection
and the listing succeed, yet `GetInfo` returns no list at any call depth, so no `Method`
is built for its declared method: the method's input type is self-referential. -/
theorem cyclic_method_type_no_methods :
    cyclicServicePool.connect = none ∧
    cyclicServicePool.getServicesDescriptors = .ok [("pkg/Tree", treeServiceDesc)] ∧
    packageNameOf "pkg/Tree" ≠ "grpc.reflection.v1alpha" ∧
    treeServiceDesc.Method.length = 1 ∧
    (∀ n, GetInfo n cyclicServicePool = .error .fuel) ∧
    ¬ ∃ n res, GetInfo n cyclicServicePool = .ok (.ok res) := by
  refine ⟨rfl, rfl, by decide, rfl, cyclicServicePool_diverges, ?_⟩
  rintro ⟨n, res, h⟩
  rw [cyclicServicePool_diverges n] at h
  cases h

/-- C9, amended: with the connection and the listing succeeded, `GetInfo` returns a list
whenever every entry that passes the package filter has a descriptor with a name and
`GetTypeInfo` returns for the input and output types of its methods.  In every list it
returns, the `j`-th entry that passes the filter is represented by the `j`-th `Service`,
whose `Methods` has one `Method` per declared method, in declaration order: the `i`-th
has the method's name, `In` and `Out` are what `GetTypeInfo` returns for the declared
input and output type names, and `InStream`/`OutStream` are the client/server streaming
markers. -/
theorem GetInfo_methods (n : Nat) (pool : descPool)
    (svcs : List (String × ServiceDescriptorProto))
    (hc : pool.connect = none)
    (hs : pool.getServicesDescriptors = .ok svcs) :
    (ServicesResolve n pool svcs → ∃ res, GetInfo n pool = .ok (.ok res)) ∧
    (∀ res, GetInfo n pool = .ok (.ok res) →
      ∀ (j : Nat) (sname : String) (descr : ServiceDescriptorProto),
        (svcs.filter
          (fun e => decide (packageNameOf e.1 ≠ "grpc.reflection.v1alpha")))[j]? =
            some (sname, descr) →
        ∃ s : Service, res[j]? = some s ∧ s.Methods.length = descr.Method.length ∧
          ∀ (i : Nat) (m : MethodDescriptorProto), descr.Method[i]? = some m →
            ∃ mi : Method, s.Methods[i]? = some mi ∧ mi.Name = m.Name ∧
              GetTypeInfo n pool m.InputType = .ok mi.In ∧
              GetTypeInfo n pool m.OutputType = .ok mi.Out ∧
              mi.InStream = m.ClientStreaming ∧ mi.OutStream = m.ServerStreaming) := by
  constructor
  · intro hres
    exact (GetInfo_list_iff n pool).mpr ⟨hc, svcs, hs, hres⟩
  · intro res hres j sname descr hj
    have hb := GetInfo_inv n pool res svcs hres hs
    obtain ⟨s, hsj, _, _, hm⟩ :=
      forall₂_getElem? (buildServices_forall₂ n pool svcs res hb) j (sname, descr) hj
    have hall := buildMethods_forall₂ n pool descr.Method s.Methods hm
    refine ⟨s, hsj, hall.length_eq.symm, ?_⟩
    intro i m hmi
    obtain ⟨mi, hmi2, h⟩ := forall₂_getElem? hall i m hmi
    exact ⟨mi, hmi2, h⟩

/-- C9, witness: `samplePool`, whose service loop completes at call depth 3, and its
service `Greeter`, the first entry that passes the filter. -/
theorem GetInfo_methods_witness :
    (∃ res, GetInfo 3 samplePool = .ok (.ok res)) ∧
    GetInfo 3 samplePool = .ok (.ok sampleServices) ∧
    ∃ s : Service, sampleServices[0]? = some s ∧ s.Methods.length = greeterDesc.Method.length ∧
      ∀ (i : Nat) (m : MethodDescriptorProto), greeterDesc.Method[i]? = some m →
        ∃ mi : Method, s.Methods[i]? = some mi ∧ mi.Name = m.Name ∧
          GetTypeInfo 3 samplePool m.InputType = .ok mi.In ∧
          GetTypeInfo 3 samplePool m.OutputType = .ok mi.Out ∧
          mi.InStream = m.ClientStreaming ∧ mi.OutStream = m.ServerStreaming :=
  ⟨(GetInfo_methods 3 samplePool _ rfl rfl).1 samplePool_servicesResolve, rfl,
    (GetInfo_methods 3 samplePool
      [ ("grpc.reflection.v1alpha/ServerReflection", emptyServiceDesc),
        ("pkg.Greeter", greeterDesc),
        ("grpc.reflection.v1alpha2/ServerReflection", emptyServiceDesc) ]
      rfl rfl).2 sampleServices rfl 0 "pkg.Greeter" greeterDesc (by decide)⟩

/-! ## C10 -/

/-- C10, counterexample: the listed map has one entry, keyed `pkg/Anon`, that passes the
filter, yet `GetInfo` returns no list, hence no `Service` for the entry: the entry's
descriptor has a nil `Name`, which line 75 dereferences. -/
theorem nameless_service_no_list :
    namelessServicePool.connect = none ∧
    namelessServicePool.getServicesDescriptors = .ok [("pkg/Anon", namelessServiceDesc)] ∧
    packageNameOf "pkg/Anon" ≠ "grpc.reflection.v1alpha" ∧
    (∀ n, GetInfo n namelessServicePool = .error .nilDeref) ∧
    ¬ ∃ n res, GetInfo n namelessServicePool = .ok (.ok res) := by
  have hall : ∀ n, GetInfo n namelessServicePool = .error .nilDeref := fun _ => rfl
  refine ⟨rfl, rfl, by decide, hall, ?_⟩
  rintro ⟨n, res, h⟩
  rw [hall n] at h
  cases h

/-- C10, amended: with the connection succeeded and the service map `svcs` listed,
`GetInfo` returns a list whenever every entry that passes the package filter has a
descriptor with a name and `GetTypeInfo` returns for the input and output types of its
methods.  Every list `res` it returns corresponds one for one and in order to the
entries of `svcs` whose derived package name differs from the string
`grpc.reflection.v1alpha` (each `Service` carries the package name derived from its
entry's key and the name of its entry's descriptor), and no `Service` has that package
name.  The comparison is string equality. -/
theorem GetInfo_filter (n : Nat) (pool : descPool)
    (svcs : List (String × ServiceDescriptorProto))
    (hc : pool.connect = none)
    (hs : pool.getServicesDescriptors = .ok svcs) :
    (ServicesResolve n pool svcs → ∃ res, GetInfo n pool = .ok (.ok res)) ∧
    (∀ res, GetInfo n pool = .ok (.ok res) →
      List.Forall₂
        (fun e s => s.PackageName = packageNameOf e.1 ∧ e.2.Name = some s.Name)
        (svcs.filter (fun e => decide (packageNameOf e.1 ≠ "grpc.reflection.v1alpha"))) res ∧
      res.length =
        (svcs.filter (fun e => decide (packageNameOf e.1 ≠ "grpc.reflection.v1alpha"))).length ∧
      (∀ s ∈ res, s.PackageName ≠ "grpc.reflection.v1alpha")) := by
  constructor
  · intro hres
    exact (GetInfo_list_iff n pool).mpr ⟨hc, svcs, hs, hres⟩
  · intro res hres
    have hb := GetInfo_inv n pool res svcs hres hs
    have hall := buildServices_forall₂ n pool svcs res hb
    refine ⟨hall.imp (fun {e} {s} h => ⟨h.2.1, h.1⟩), hall.length_eq.symm, ?_⟩
    intro s hsm
    obtain ⟨i, hi, hget⟩ := List.getElem_of_mem hsm
    have hlen := hall.length_eq
    have hi2 : i < (svcs.filter
        (fun e => decide (packageNameOf e.1 ≠ "grpc.reflection.v1alpha"))).length := by
      rw [hlen]; exact hi
    obtain ⟨s2, hs2, _, hpk, _⟩ := forall₂_getElem? hall i _ (List.getElem?_eq_getElem hi2)
    rw [List.getElem?_eq_getElem hi, hget] at hs2
    cases hs2
    rw [hpk]
    have hmem := List.getElem_mem hi2
    have := (List.mem_filter.mp hmem).2
    simpa using this

/-- C10, witness: `samplePool` lists an entry of package `grpc.reflection.v1alpha`,
which is dropped, and one of package `grpc.reflection.v1alpha2`, which is kept. -/
theorem GetInfo_filter_witness :
    (∃ res, GetInfo 3 samplePool = .ok (.ok res)) ∧
    GetInfo 3 samplePool = .ok (.ok sampleServices) ∧
    sampleServices.map (fun s => s.PackageName) = ["pkg.Greeter", "grpc.reflection.v1alpha2"] ∧
    (List.Forall₂
      (fun e s => s.PackageName = packageNameOf e.1 ∧ e.2.Name = some s.Name)
      ([ ("grpc.reflection.v1alpha/ServerReflection", emptyServiceDesc),
         ("pkg.Greeter", greeterDesc),
         ("grpc.reflection.v1alpha2/ServerReflection", emptyServiceDesc) ].filter
        (fun e => decide (packageNameOf e.1 ≠ "grpc.reflection.v1alpha"))) sampleServices ∧
    sampleServices.length =
      ([ ("grpc.reflection.v1alpha/ServerReflection", emptyServiceDesc),
         ("pkg.Greeter", greeterDesc),
         ("grpc.reflection.v1alpha2/ServerReflection", emptyServiceDesc) ].filter
        (fun e => decide (packageNameOf e.1 ≠ "grpc.reflection.v1alpha"))).length ∧
    (∀ s ∈ sampleServices, s.PackageName ≠ "grpc.reflection.v1alpha")) :=
  ⟨(GetInfo_filter 3 samplePool _ rfl rfl).1 samplePool_servicesResolve, rfl, rfl,
    (GetInfo_filter 3 samplePool _ rfl rfl).2 sampleServices rfl⟩

/-! ## C14 -/

/-- C14, counterexample: in `listingErrorPool` the connection succeeds, the service
listing fails, and `GetInfo` returns that error.  In `zeroServicePool` the connection and
the listing succeed and `GetInfo` returns neither a list nor an error: resolving the
method type `pkg.Zero` panics in the slice of line 128. -/
theorem listing_error_returned :
    listingErrorPool.connect = none ∧
    (∀ n, GetInfo n listingErrorPool = .ok (.error { msg := "list services failed" })) ∧
    zeroServicePool.connect = none ∧
    zeroServicePool.getServicesDescriptors = .ok [("pkg/Zero", zeroServiceDesc)] ∧
    (∀ n, GetInfo (n + 1) zeroServicePool = .error .sliceBounds) ∧
    ¬ ∃ n res, GetInfo n zeroServicePool = .ok (.ok res) := by
  have hpanic : ∀ n, GetInfo (n + 1) zeroServicePool = .error .sliceBounds := fun _ => rfl
  refine ⟨rfl, fun _ => rfl, rfl, rfl, hpanic, ?_⟩
  rintro ⟨n, res, h⟩
  cases n with
  | zero =>
    have h0 : GetInfo 0 zeroServicePool = .error .fuel := rfl
    rw [h0] at h
    cases h
  | succ m => rw [hpanic m] at h; cases h

/-- C14, amended: `GetInfo` returns the error `err` exactly when the connection fails
with `err`, or the connection succeeds and the service listing fails with `err`; in
both cases it returns no list.  It returns a list (nil error) exactly when the
connection and the listing succeed and the service loop completes, that is every
entry that passes the package filter has a descriptor with a name and `GetTypeInfo`
returns for the input and output types of its methods.  Once the connection and the
listing have succeeded it returns no error. -/
theorem GetInfo_error_iff (n : Nat) (pool : descPool) :
    (∀ err : Error, GetInfo n pool = .ok (.error err) ↔
      (pool.connect = some err ∨
        (pool.connect = none ∧ pool.getServicesDescriptors = .error err))) ∧
    ((∃ res, GetInfo n pool = .ok (.ok res)) ↔
      (pool.connect = none ∧
        ∃ svcs, pool.getServicesDescriptors = .ok svcs ∧ ServicesResolve n pool svcs)) ∧
    (pool.connect = none → ∀ svcs, pool.getServicesDescriptors = .ok svcs →
      ∀ err : Error, GetInfo n pool ≠ .ok (.error err)) := by
  have herr : ∀ err : Error, GetInfo n pool = .ok (.error err) ↔
      (pool.connect = some err ∨
        (pool.connect = none ∧ pool.getServicesDescriptors = .error err)) := by
    intro err
    unfold GetInfo
    cases hc : pool.connect with
    | some e => simp
    | none =>
      cases hs : pool.getServicesDescriptors with
      | error e => simp
      | ok svcs =>
        cases hb : buildServices n pool svcs <;> simp [hb]
  refine ⟨herr, GetInfo_list_iff n pool, ?_⟩
  intro hc svcs hs err h
  rcases (herr err).mp h with h1 | ⟨_, h2⟩
  · rw [hc] at h1; cases h1
  · rw [hs] at h2; cases h2

/-- C14, witness: on `samplePool` the connection and the listing succeed and the
service loop completes at call depth 3, so a list is returned; on `unreachablePool` the
connection error is returned. -/
theorem GetInfo_error_iff_witness :
    (∃ res, GetInfo 3 samplePool = .ok (.ok res)) ∧
    GetInfo 3 unreachablePool = .ok (.error { msg := "connection refused" }) :=
  ⟨(GetInfo_error_iff 3 samplePool).2.1.mpr ⟨rfl, _, rfl, samplePool_servicesResolve⟩,
    ((GetInfo_error_iff 3 unreachablePool).1 { msg := "connection refused" }).mpr
      (Or.inl rfl)⟩

/-! ## C8 -/

/-- C8, counterexample: `samplePool` resolves `pkg.Inner`, and the `TypeInfo` returned
for it carries `Id` 0, the tag of the error node; so do the resolved `In` and `Out` of
the method `SayHello` in the list `GetInfo` returns. -/
theorem resolved_type_has_error_tag :
    samplePool.getTypeDescriptor "pkg.Inner" = some innerDesc ∧
    GetTypeInfo 1 samplePool "pkg.Inner" = .ok innerInfo ∧ innerInfo.Id = 0 ∧
    GetInfo 3 samplePool = .ok (.ok sampleServices) ∧
    ((sampleServices[0]?).bind (fun s => s.Methods[0]?)).map
      (fun m => (m.Name, m.In.Name, m.In.Id, m.Out.Name, m.Out.Id)) =
      some ("SayHello", "HelloRequest", 0, "HelloReply", 0) :=
  ⟨rfl, rfl, rfl, rfl, rfl⟩

theorem GetTypeInfo_Id (pool : descPool) (n : Nat) (typeName : String) (r : TypeInfo)
    (h : GetTypeInfo n pool typeName = .ok r) : r.Id = 0 := by
  cases n with
  | zero => simp [GetTypeInfo] at h
  | succ m =>
    cases hd : pool.getTypeDescriptor typeName with
    | none =>
      rw [unresolved_call pool typeName m hd] at h
      simp only [Except.ok.injEq] at h
      rw [← h]; rfl
    | some d =>
      obtain ⟨_, fields, _, _, hr⟩ := resolved_call_inv pool (m + 1) typeName d r hd h
      rw [hr]; rfl

/-- C8, amended: every `TypeInfo` that `GetTypeInfo` returns carries `Id` 0, for a
resolved message type as for a name the pool cannot resolve.  The call returns, with
`Id` 0, for every unresolved name, and for a resolved one whenever the type of every
declared field can be computed one level down.  In every list `GetInfo` returns, the
`In` and `Out` of every method carry `Id` 0. -/
theorem returned_tag_zero (pool : descPool) (typeName : String) :
    (∀ n r, GetTypeInfo n pool typeName = .ok r → r.Id = 0) ∧
    (pool.getTypeDescriptor typeName = none →
      ∀ n, ∃ r, GetTypeInfo (n + 1) pool typeName = .ok r ∧ r.Id = 0) ∧
    (∀ d, pool.getTypeDescriptor typeName = some d →
      ∀ n, (∀ f ∈ d.Field, ∃ t, fieldTypeInfo (GetTypeInfo n pool) f = .ok t) →
        ∃ r, GetTypeInfo (n + 1) pool typeName = .ok r ∧ r.Id = 0) ∧
    (∀ n res, GetInfo n pool = .ok (.ok res) →
      ∀ s ∈ res, ∀ m ∈ s.Methods, m.In.Id = 0 ∧ m.Out.Id = 0) := by
  refine ⟨fun n r h => GetTypeInfo_Id pool n typeName r h, ?_, ?_, ?_⟩
  · intro hd n
    exact ⟨_, unresolved_call pool typeName n hd, rfl⟩
  · intro d hd n hall
    obtain ⟨fis, hfis⟩ := buildFields_ok_of_types pool (GetTypeInfo n pool) d.Field hall
    exact ⟨_, resolved_call pool n typeName d fis hd hfis, rfl⟩
  · intro n res hres s hs m hm
    obtain ⟨hc, svcs, hsv, _⟩ := (GetInfo_list_iff n pool).mp ⟨res, hres⟩
    have hb := GetInfo_inv n pool res svcs hres hsv
    have hall := buildServices_forall₂ n pool svcs res hb
    obtain ⟨i, hi, hget⟩ := List.getElem_of_mem hs
    have hi2 : i < (svcs.filter
        (fun e => decide (packageNameOf e.1 ≠ "grpc.reflection.v1alpha"))).length := by
      rw [hall.length_eq]; exact hi
    obtain ⟨s2, hs2, _, _, hbm⟩ := forall₂_getElem? hall i _ (List.getElem?_eq_getElem hi2)
    rw [List.getElem?_eq_getElem hi, hget] at hs2
    cases hs2
    have hmall := buildMethods_forall₂ n pool _ s.Methods hbm
    obtain ⟨k, hk, hgetm⟩ := List.getElem_of_mem hm
    have hk2 : k < ((svcs.filter
        (fun e => decide (packageNameOf e.1 ≠ "grpc.reflection.v1alpha")))[i]).2.Method.length := by
      rw [hmall.length_eq]; exact hk
    obtain ⟨m2, hm2, _, hin, hout, _⟩ :=
      forall₂_getElem? hmall k _ (List.getElem?_eq_getElem hk2)
    rw [List.getElem?_eq_getElem hk, hgetm] at hm2
    cases hm2
    exact ⟨GetTypeInfo_Id pool n _ _ hin, GetTypeInfo_Id pool n _ _ hout⟩

/-- C8, witness: the resolved `pkg.Inner` and the unresolved `missing.Type` of
`samplePool`. -/
theorem returned_tag_zero_witness :
    samplePool.getTypeDescriptor "pkg.Inner" = some innerDesc ∧
    GetTypeInfo 1 samplePool "pkg.Inner" = .ok innerInfo ∧ innerInfo.Id = 0 ∧
    samplePool.getTypeDescriptor "missing.Type" = none ∧
    ∃ r, GetTypeInfo (0 + 1) samplePool "missing.Type" = .ok r ∧ r.Id = 0 :=
  ⟨rfl, rfl, (returned_tag_zero samplePool "pkg.Inner").1 1 innerInfo rfl, rfl,
    (returned_tag_zero samplePool "missing.Type").2.1 rfl 0⟩

/-! ### A slice panic persists at every larger call depth -/

theorem buildField_of_error (pool : descPool) (recur : String → Except Fault TypeInfo)
    (f : FieldDescriptorProto) (e : Fault) (h : fieldTypeInfo recur f = .error e) :
    buildField pool recur f = .error e := by
  simp only [buildField, h]

theorem fieldTypeInfo_panic_stable (recur recur2 : String → Except Fault TypeInfo)
    (hp : ∀ s, recur s = .error .sliceBounds → recur2 s = .error .sliceBounds)
    (f : FieldDescriptorProto) (h : fieldTypeInfo recur f = .error .sliceBounds) :
    fieldTypeInfo recur2 f = .error .sliceBounds := by
  rcases fieldTypeInfo_error recur f _ h with ⟨hn, hrec⟩ | ⟨hn, hsc⟩
  · rw [fieldTypeInfo_named _ f hn, hp _ hrec]
  · rw [fieldTypeInfo_scalar _ f hn]
    exact hsc

theorem buildFields_panic_stable (pool : descPool)
    (recur recur2 : String → Except Fault TypeInfo)
    (hok : ∀ s t, recur s = .ok t → recur2 s = .ok t)
    (hp : ∀ s, recur s = .error .sliceBounds → recur2 s = .error .sliceBounds) :
    ∀ fs : List FieldDescriptorProto, buildFields pool recur fs = .error .sliceBounds →
      buildFields pool recur2 fs = .error .sliceBounds := by
  intro fs
  induction fs with
  | nil => intro h; simp [buildFields] at h
  | cons f rest ih =>
    intro h
    simp only [buildFields] at h ⊢
    cases hf : buildField pool recur f with
    | error e =>
      simp only [hf, Except.error.injEq] at h
      subst h
      have := buildField_of_error pool recur2 f _
        (fieldTypeInfo_panic_stable recur recur2 hp f (buildField_error pool recur f _ hf))
      simp only [this]
    | ok fi =>
      rw [buildField_mono pool recur recur2 hok f fi hf]
      cases hr : buildFields pool recur rest with
      | ok fis => simp [hf, hr] at h
      | error e =>
        simp only [hf, hr, Except.error.injEq] at h
        subst h
        simp only [ih hr]

theorem GetTypeInfo_panic_succ (pool : descPool) :
    ∀ (n : Nat) (typeName : String), GetTypeInfo n pool typeName = .error .sliceBounds →
      GetTypeInfo (n + 1) pool typeName = .error .sliceBounds := by
  intro n
  induction n with
  | zero => intro typeName h; simp [GetTypeInfo] at h
  | succ m ih =>
    intro typeName h
    cases hd : pool.getTypeDescriptor typeName with
    | none => rw [unresolved_call pool typeName m hd] at h; cases h
    | some d =>
      have hb : buildFields pool (GetTypeInfo m pool) d.Field = .error .sliceBounds := by
        rw [GetTypeInfo] at h
        simp only [hd] at h
        cases hb : buildFields pool (GetTypeInfo m pool) d.Field with
        | ok fields => simp [hb] at h
        | error e =>
          simp only [hb, Except.error.injEq] at h
          rw [h]
      have hb2 := buildFields_panic_stable pool (GetTypeInfo m pool) (GetTypeInfo (m + 1) pool)
        (GetTypeInfo_succ pool m) ih d.Field hb
      rw [GetTypeInfo]
      simp only [hd, hb2]

theorem GetTypeInfo_panic_mono (pool : descPool) (n k : Nat) (typeName : String)
    (h : GetTypeInfo n pool typeName = .error .sliceBounds) :
    GetTypeInfo (n + k) pool typeName = .error .sliceBounds := by
  induction k with
  | zero => exact h
  | succ j ih => exact GetTypeInfo_panic_succ pool (n + j) typeName ih

/-- With every slice in range in the messages reachable from `M`, the resolution of a
name reachable from `M` fails only by unbounded recursion. -/
theorem reachable_fault_fuel (pool : descPool) (M : String)
    (hS : ∀ (name : String) (d : DescriptorProto),
      Relation.ReflTransGen (Refers pool) M name → pool.getTypeDescriptor name = some d →
      ∀ f ∈ d.Field, f.TypeName = "" →
        5 ≤ (FieldDescriptorProto_Type_String f.Typ).data.length) :
    ∀ (n : Nat) (name : String) (e : Fault),
      Relation.ReflTransGen (Refers pool) M name →
      GetTypeInfo n pool name = .error e → e = .fuel := by
  intro n
  induction n with
  | zero =>
    intro name e _ h
    simp only [GetTypeInfo, Except.error.injEq] at h
    exact h.symm
  | succ m ih =>
    intro name e hreach h
    obtain ⟨d, hd, f, hf, hfe⟩ := GetTypeInfo_error_inv pool m name e h
    rcases fieldTypeInfo_error _ f e hfe with ⟨hne, hrec⟩ | ⟨hn, hsc⟩
    · exact ih f.TypeName e
        (Relation.ReflTransGen.tail hreach ⟨d, f, hd, hf, hne, rfl⟩) hrec
    · have hlt := (scalarTypeInfo_error f.Typ e hsc).2
      have hge := hS name d hreach hd f hf hn
      omega

theorem nodeAndZeroPool_reach (name : String)
    (h : Relation.ReflTransGen (Refers nodeAndZeroPool) "pkg.Node" name) :
    name = "pkg.Node" := by
  induction h with
  | refl => rfl
  | tail _ hstep ih =>
    obtain ⟨d, f, hd, hf, _, hfb⟩ := hstep
    rw [ih] at hd
    have hd0 : nodeAndZeroPool.getTypeDescriptor "pkg.Node" = some nodeDesc := rfl
    rw [hd0] at hd
    cases hd
    simp only [nodeDesc, List.mem_singleton] at hf
    subst hf
    exact hfb.symm

/-! ## C15 -/

/-- C15, counterexample: `pkg.Bad` refers to itself, yet the resolution stops at depth
one in the slice panic of its first field; it does not exhaust the call depth. -/
theorem cycle_stopped_by_panic :
    Relation.TransGen (Refers badCyclicPool) "pkg.Bad" "pkg.Bad" ∧
    (∀ n, GetTypeInfo (n + 1) badCyclicPool "pkg.Bad" = .error .sliceBounds) ∧
    GetTypeInfo 1 badCyclicPool "pkg.Bad" ≠ .error .fuel := by
  refine ⟨Relation.TransGen.single ⟨badNodeDesc,
      { Name := "next", Number := 2, Label := 1, Typ := 11, TypeName := "pkg.Bad",
        Options := none }, rfl, ?_, by decide, rfl⟩, fun n => rfl, ?_⟩
  · simp [badNodeDesc]
  · intro h
    have h2 : GetTypeInfo 1 badCyclicPool "pkg.Bad" = .error .sliceBounds := rfl
    rw [h2] at h
    cases h

/-- C15, amended: when the message type `M` refers to itself through type-named
fields, directly or through other resolved messages, `GetTypeInfo` returns no `TypeInfo`
for `M`: at every call depth the resolution either exhausts the depth or stops in the
slice panic of a field without type name.  Overall it either exhausts every call depth
(it does not terminate) or, from some call depth on, always stops in that panic.  It
exhausts every call depth whenever the slice is in range for every field without type
name of the messages reachable from `M` through type-named fields. -/
theorem self_reference_no_result (pool : descPool) (M : String)
    (h : Relation.TransGen (Refers pool) M M) :
    (∀ n, GetTypeInfo n pool M = .error .fuel ∨ GetTypeInfo n pool M = .error .sliceBounds) ∧
    ((∀ n, GetTypeInfo n pool M = .error .fuel) ∨
      ∃ k, ∀ n, k ≤ n → GetTypeInfo n pool M = .error .sliceBounds) ∧
    ((∀ (name : String) (d : DescriptorProto),
        Relation.ReflTransGen (Refers pool) M name → pool.getTypeDescriptor name = some d →
        ∀ f ∈ d.Field, f.TypeName = "" →
          5 ≤ (FieldDescriptorProto_Type_String f.Typ).data.length) →
      ∀ n, GetTypeInfo n pool M = .error .fuel) := by
  have hkinds : ∀ n, GetTypeInfo n pool M = .error .fuel ∨
      GetTypeInfo n pool M = .error .sliceBounds := by
    intro n
    cases hr : GetTypeInfo n pool M with
    | ok r => exact absurd hr (cycle_not_ok pool n M h r)
    | error e =>
      rcases GetTypeInfo_fault_kinds pool n M e hr with he | he <;> simp [he]
  refine ⟨hkinds, ?_, ?_⟩
  · by_cases hall : ∀ n, GetTypeInfo n pool M = .error .fuel
    · exact Or.inl hall
    · right
      obtain ⟨k, hk⟩ := not_forall.mp hall
      have hpanic : GetTypeInfo k pool M = .error .sliceBounds := by
        rcases hkinds k with h1 | h1
        · exact absurd h1 hk
        · exact h1
      refine ⟨k, fun n hn => ?_⟩
      have := GetTypeInfo_panic_mono pool k (n - k) M hpanic
      rwa [Nat.add_sub_cancel' hn] at this
  · intro hS n
    cases hr : GetTypeInfo n pool M with
    | ok r => exact absurd hr (cycle_not_ok pool n M h r)
    | error e =>
      rw [reachable_fault_fuel pool M hS n M e Relation.ReflTransGen.refl hr]

/-- C15, witness: `pkg.Node` of `nodeAndZeroPool` refers to itself and reaches no other
message; the pool's unrelated `pkg.Zero` has a slice out of range, which does not
matter. -/
theorem self_reference_no_result_witness :
    Relation.TransGen (Refers nodeAndZeroPool) "pkg.Node" "pkg.Node" ∧
    ¬ SliceSafe nodeAndZeroPool ∧
    ∀ n, GetTypeInfo n nodeAndZeroPool "pkg.Node" = .error .fuel := by
  have hcyc : Relation.TransGen (Refers nodeAndZeroPool) "pkg.Node" "pkg.Node" :=
    Relation.TransGen.single ⟨nodeDesc,
      { Name := "next", Number := 1, Label := 1, Typ := 11, TypeName := "pkg.Node",
        Options := none }, rfl, by simp [nodeDesc], by decide, rfl⟩
  have hunsafe : ¬ SliceSafe nodeAndZeroPool := by
    intro hs
    have := hs "pkg.Zero" zeroCodeDesc rfl
      { Name := "x", Number := 1, Label := 1, Typ := 0, TypeName := "", Options := none }
      (by simp [zeroCodeDesc]) rfl
    revert this
    decide
  refine ⟨hcyc, hunsafe, (self_reference_no_result nodeAndZeroPool "pkg.Node" hcyc).2.2 ?_⟩
  intro name d hreach hd f hf hn
  have hname := nodeAndZeroPool_reach name hreach
  subst hname
  have hd0 : nodeAndZeroPool.getTypeDescriptor "pkg.Node" = some nodeDesc := rfl
  rw [hd0] at hd
  cases hd
  simp only [nodeDesc, List.mem_singleton] at hf
  subst hf
  simp at hn

/-! ### The calls of a `GetInfo` call that exits, and of one that does not -/

theorem GetInfoTrace_exit (n : Nat) (pool : descPool)
    (hc : pool.connect = none) (hexit : GetInfo n pool ≠ .error .fuel) :
    ∃ lookups : List Event,
      (GetInfoTrace n pool).1 =
        Event.connect :: Event.getServicesDescriptors :: (lookups ++ [Event.disconnect]) ∧
      ∀ ev ∈ lookups, ev.isLookup = true := by
  rw [← GetInfoTrace_snd] at hexit
  unfold GetInfoTrace at hexit ⊢
  simp only [hc] at hexit ⊢
  cases hs : pool.getServicesDescriptors with
  | error err => exact ⟨[], rfl, by simp⟩
  | ok svcs =>
    have hl := traceServices_lookups n pool svcs
    simp only [hs] at hexit ⊢
    rcases h1 : traceServices n pool svcs with ⟨tr, (e | res)⟩
    · rw [h1] at hl
      cases e with
      | fuel => simp [h1] at hexit
      | sliceBounds => exact ⟨tr, rfl, hl⟩
      | nilDeref => exact ⟨tr, rfl, hl⟩
    · rw [h1] at hl
      exact ⟨tr, rfl, hl⟩

theorem lookups_count_disconnect (tr : List Event) (h : ∀ ev ∈ tr, ev.isLookup = true) :
    tr.count Event.disconnect = 0 := by
  rw [List.count_eq_zero]
  intro hmem
  have := h _ hmem
  simp [Event.isLookup] at this

theorem GetInfoTrace_no_exit (n : Nat) (pool : descPool)
    (hc : pool.connect = none) (hfuel : GetInfo n pool = .error .fuel) :
    (GetInfoTrace n pool).1.count Event.disconnect = 0 := by
  rw [← GetInfoTrace_snd] at hfuel
  unfold GetInfoTrace at hfuel ⊢
  simp only [hc] at hfuel ⊢
  cases hs : pool.getServicesDescriptors with
  | error err => simp [hs] at hfuel
  | ok svcs =>
    have hl := traceServices_lookups n pool svcs
    simp only [hs] at hfuel ⊢
    rcases h1 : traceServices n pool svcs with ⟨tr, (e | res)⟩
    · rw [h1] at hl
      cases e with
      | fuel =>
        simp only [List.count_cons, lookups_count_disconnect tr hl]
        decide
      | sliceBounds => simp [h1] at hfuel
      | nilDeref => simp [h1] at hfuel
    · simp [h1] at hfuel

/-! ## C16 -/

/-- C16, counterexample: on `cyclicServicePool` the connection succeeds and the listed
method type is self-referential; at every call depth the resolution is still running
and no `disconnect` has been invoked. -/
theorem diverging_call_never_disconnects :
    cyclicServicePool.connect = none ∧
    (∀ n, GetInfo n cyclicServicePool = .error .fuel) ∧
    ∀ n, (GetInfoTrace n cyclicServicePool).1.count Event.disconnect = 0 :=
  ⟨rfl, cyclicServicePool_diverges,
    fun n => GetInfoTrace_no_exit n cyclicServicePool rfl (cyclicServicePool_diverges n)⟩

/-- C16, amended: the traced `GetInfo` returns what `GetInfo` returns.  When `connect`
fails, `connect` is the only call made on the pool.  When `connect` succeeds and the
call exits (it returns, on the listing-error path or normally, or it panics), the calls
are `connect`, then `getServicesDescriptors` and the lookups, then `disconnect`: exactly
one `disconnect`, after every lookup; on the listing-error path nothing is looked up.
The call exits whenever the listing fails or the service loop completes.  When
`connect` succeeds and the resolution has not ended within the call depth, no
`disconnect` has been invoked; a resolution that never ends never invokes it. -/
theorem connection_released_once (n : Nat) (pool : descPool) :
    (GetInfoTrace n pool).2 = GetInfo n pool ∧
    (∀ err, pool.connect = some err → (GetInfoTrace n pool).1 = [Event.connect]) ∧
    (pool.connect = none → GetInfo n pool ≠ .error .fuel →
      (∃ lookups : List Event,
        (GetInfoTrace n pool).1 =
          Event.connect :: Event.getServicesDescriptors :: (lookups ++ [Event.disconnect]) ∧
        ∀ ev ∈ lookups, ev.isLookup = true) ∧
      (GetInfoTrace n pool).1.count Event.disconnect = 1) ∧
    (pool.connect = none → ∀ err, pool.getServicesDescriptors = .error err →
      (GetInfoTrace n pool).1 =
        [Event.connect, Event.getServicesDescriptors, Event.disconnect]) ∧
    (pool.connect = none →
      ((∃ err, pool.getServicesDescriptors = .error err) ∨
        ∃ svcs, pool.getServicesDescriptors = .ok svcs ∧ ServicesResolve n pool svcs) →
      GetInfo n pool ≠ .error .fuel) ∧
    (pool.connect = none → GetInfo n pool = .error .fuel →
      (GetInfoTrace n pool).1.count Event.disconnect = 0) := by
  refine ⟨GetInfoTrace_snd n pool, ?_, ?_, ?_, ?_, ?_⟩
  · intro err hc
    simp only [GetInfoTrace, hc]
  · intro hc hexit
    refine ⟨GetInfoTrace_exit n pool hc hexit, ?_⟩
    obtain ⟨lookups, htr, hl⟩ := GetInfoTrace_exit n pool hc hexit
    rw [htr]
    simp [List.count_cons, lookups_count_disconnect lookups hl]
  · intro hc err hs
    simp only [GetInfoTrace, hc, hs]
  · intro hc hcase hfuel
    rcases hcase with ⟨err, hs⟩ | ⟨svcs, hs, hres⟩
    · simp [GetInfo, hc, hs] at hfuel
    · obtain ⟨res, hr⟩ := (GetInfo_list_iff n pool).mpr ⟨hc, svcs, hs, hres⟩
      rw [hr] at hfuel
      cases hfuel
  · intro hc hfuel
    exact GetInfoTrace_no_exit n pool hc hfuel

/-- C16, witness: the calls `GetInfo` makes on `samplePool`. -/
theorem connection_released_once_witness :
    (GetInfoTrace 3 samplePool).1 =
      [ Event.connect, Event.getServicesDescriptors,
        Event.getTypeDescriptor "pkg.HelloRequest", Event.getTypeDescriptor "pkg.Kind",
        Event.getEnumDescriptor "pkg.Kind", Event.getTypeDescriptor "pkg.Inner",
        Event.getTypeDescriptor "missing.Type", Event.getTypeDescriptor "pkg.NoEnum",
        Event.getEnumDescriptor "pkg.NoEnum", Event.getTypeDescriptor "pkg.HelloReply",
        Event.getTypeDescriptor "missing.Type", Event.getTypeDescriptor "pkg.Inner",
        Event.disconnect ] ∧
    GetInfo 3 samplePool ≠ .error .fuel ∧
    (∃ lookups : List Event,
      (GetInfoTrace 3 samplePool).1 =
        Event.connect :: Event.getServicesDescriptors :: (lookups ++ [Event.disconnect]) ∧
      ∀ ev ∈ lookups, ev.isLookup = true) ∧
    (GetInfoTrace 3 samplePool).1.count Event.disconnect = 1 := by
  have hexit : GetInfo 3 samplePool ≠ .error .fuel :=
    (connection_released_once 3 samplePool).2.2.2.2.1 rfl
      (Or.inr ⟨_, rfl, samplePool_servicesResolve⟩)
  exact ⟨by decide, hexit, (connection_released_once 3 samplePool).2.2.1 rfl hexit⟩

end reflection
